import Mathlib

/-!
Verification of the GOG Galaxy importer (myhomegames-importer).

The repository contains several historical revisions of the importer; the
most recent revision (the one with the reducing-title search, the
already-cataloged candidate filter and the forced-reimport skip flags) is
embedded here, together with the row-grouping, import-map loading and
collection-membership deduplication code shared by the revisions.

JavaScript string/number values that may be `null` are modelled as
`Option String` / `Option Int`; JS truthiness (`""`, `0`, `null` falsy) is
made explicit by the `strTruthy` / `intTruthy` helpers.  Every remote call
and upload performed by the code is recorded in a trace of `Call` values,
so that claims about which interfaces get invoked become statements about
the trace.
-/

namespace MHG

/-- JS truthiness of a `string | null` value: `null` and `""` are falsy. -/
def strTruthy : Option String → Bool
  | none => false
  | some s => s ≠ ""

/-- JS truthiness of a `number | null` value: `null` and `0` are falsy. -/
def intTruthy : Option Int → Bool
  | none => false
  | some n => n ≠ 0

/-- JS `x || null` for a `number | null` value: falsy values collapse to `null`. -/
def jsNullIfFalsy (x : Option Int) : Option Int :=
  if intTruthy x then x else none

/-- JS `a || b` for `number | null` values. -/
def jsOrI (a b : Option Int) : Option Int :=
  if intTruthy a then a else b

/-- JS `a || b` where `a : string | null` and `b : string`. -/
def jsOrS (a : Option String) (b : String) : String :=
  match a with
  | some s => if s ≠ "" then s else b
  | none => b

/-! ### Association-list maps (JS `Map` with string keys, insertion order) -/

/-- `Map.get`. -/
def lookupKey {α : Type} (m : List (String × α)) (k : String) : Option α :=
  match m.find? (fun kv => kv.1 = k) with
  | some kv => some kv.2
  | none => none

/-- `Map.has`. -/
def containsKey {α : Type} (m : List (String × α)) (k : String) : Bool :=
  (lookupKey m k).isSome

/-- `Map.set`: overwrite in place if the key exists, else append. -/
def setKey {α : Type} (m : List (String × α)) (k : String) (v : α) : List (String × α) :=
  if containsKey m k then m.map (fun kv => if kv.1 = k then (kv.1, v) else kv)
  else m ++ [(k, v)]

/-- Mutating update of the value stored under an existing key. -/
def updateKey {α : Type} (m : List (String × α)) (k : String) (f : α → α) :
    List (String × α) :=
  m.map (fun kv => if kv.1 = k then (kv.1, f kv.2) else kv)

/-! ### Whitespace word splitting (JS `trim`, `split(/\s+/)`, `join(' ')`) -/

/-- Split a character list at every whitespace character, keeping the
(possibly empty) pieces, like `String.split` at each separator. -/
def splitPieces : List Char → List (List Char)
  | [] => [[]]
  | c :: cs =>
    let r := splitPieces cs
    if c.isWhitespace then [] :: r
    else
      match r with
      | [] => [[c]]
      | w :: ws => (c :: w) :: ws

/-- JS `s.split(/\s+/)` on a string with no leading whitespace: maximal
whitespace runs separate the words, so the empty pieces are dropped. -/
def wsWords (s : String) : List String :=
  ((splitPieces s.data).filter (fun w => w ≠ [])).map (fun w => String.mk w)

/-- JS `words.join(' ')`. -/
def joinWords : List String → String
  | [] => ""
  | [w] => w
  | w :: ws => w ++ " " ++ joinWords ws

/-- JS `s.trim()`: strip whitespace from both ends. -/
def trimWs (s : String) : String :=
  String.mk (((s.data.dropWhile Char.isWhitespace).reverse.dropWhile
    Char.isWhitespace).reverse)

/-! ### Calendar helpers

`new Date(ts*1000)` computations.  The UTC proleptic-Gregorian conversion is
implemented with the standard era decomposition; the importer runs them only
for logging / derived display fields, no claim depends on their values. -/

/-- Civil date (year, month, day) of a day count since 1970-01-01 (UTC). -/
def civilFromDays (z : Int) : Int × Int × Int :=
  let z := z + 719468
  let era : Int := (if z ≥ 0 then z else z - 146096) / 146097
  let doe : Int := z - era * 146097
  let yoe : Int := (doe - doe / 1460 + doe / 36524 - doe / 146096) / 365
  let y : Int := yoe + era * 400
  let doy : Int := doe - (365 * yoe + yoe / 4 - yoe / 100)
  let mp : Int := (5 * doy + 2) / 153
  let d : Int := doy - (153 * mp + 2) / 5 + 1
  let m : Int := mp + (if mp < 10 then 3 else -9)
  (y + (if m ≤ 2 then 1 else 0), m, d)

/-- Floor division of a Unix-seconds timestamp into days. -/
def daysOfTimestamp (ts : Int) : Int := Int.fdiv ts 86400

/-- `new Date(ts*1000).getFullYear()` (modelled in UTC). -/
def yearOfTimestamp (ts : Int) : Int := (civilFromDays (daysOfTimestamp ts)).1

/-- Left-pad a numeral with zeros. -/
def padNum (width : Nat) (n : Int) : String :=
  let s := toString n
  if s.length < width then String.mk (List.replicate (width - s.length) '0') ++ s else s

/-- `new Date(ts*1000).toISOString().split('T')[0]` (modelled in UTC). -/
def isoDateOfTimestamp (ts : Int) : String :=
  let c := civilFromDays (daysOfTimestamp ts)
  padNum 4 c.1 ++ "-" ++ padNum 2 c.2.1 ++ "-" ++ padNum 2 c.2.2

/-! ### Data model -/

/-- A candidate returned by the remote search (`/igdb/search`). -/
structure IgdbGame where
  id : Int
  name : String
  deriving DecidableEq, Repr

/-- The fields of a full remote detail record that the importer reads.
The remaining payload fields are copied through unchanged and are not
modelled. -/
structure FullGameData where
  name : Option String := none
  releaseDateFullTs : Option Int := none
  releaseDate : Option Int := none
  deriving DecidableEq, Repr

/-- A persisted import-map entry, in its normalized object shape
`{igdbId, title, releaseDate, stars}`. -/
structure MapEntry where
  igdbId : Option Int := none
  title : Option String := none
  releaseDate : Option String := none
  stars : Option Int := none
  deriving DecidableEq, Repr

/-- The JS value flowing through `existingIgdbId` / `gameId`: either a
number, or a non-numeric object (the map-entry fallback of
`entry?.igdbId || entry`, whose `Number(...)` conversion is `NaN`). -/
inductive JVal where
  | num (n : Int)
  | obj
  deriving DecidableEq, Repr

/-- JS truthiness of a `JVal` (objects are always truthy). -/
def jvalTruthy : JVal → Bool
  | .num n => n ≠ 0
  | .obj => true

/-- The modelled fields of the record payload sent to `createGameViaAPI`. -/
structure GameData where
  igdbId : JVal
  name : String
  releaseDate : Option Int
  stars : Option Int
  deriving DecidableEq, Repr

/-- One executable attached to a release.  The grouping loop only stores
truthy paths; `""` plays the role of a falsy path. -/
structure ExecEntry where
  path : String
  label : Option String
  deriving DecidableEq, Repr

/-- The value returned by a successful `importGame`. -/
structure ImportResult where
  gameId : JVal
  igdbId : JVal
  title : String
  releaseDate : Option String
  stars : Option Int
  deriving DecidableEq, Repr

/-- One flat row of the games query (release × executable × metadata). -/
structure GameRow where
  releaseKey : Option String
  title : String
  executablePath : Option String
  label : Option String
  myRating : Option Int
  releaseDate : Option Int
  deriving DecidableEq, Repr

/-- The per-release aggregate built by the grouping loop, while the
`executableSet` dedup set is still alive. -/
structure GroupAgg where
  titles : List String
  title : String
  executables : List ExecEntry
  executableSet : List String
  myRating : Option Int
  releaseYear : Option Int
  releaseDate : Option Int
  deriving DecidableEq, Repr

/-- The aggregate after the post-grouping cleanup (`executableSet` deleted). -/
structure GameAgg where
  titles : List String
  title : String
  executables : List ExecEntry
  myRating : Option Int
  releaseYear : Option Int
  releaseDate : Option Int
  deriving DecidableEq, Repr

/-- Every remote/API/file effect the importer performs, in order. -/
inductive Call where
  | searchCall (title : String) (dateHint : Option Int)
  | getDetailsCall (id : JVal)
  | createGameCall (g : GameData)
  | uploadExecCall (gameId : JVal) (path : String) (label : String)
  | uploadCoverCall (gameId : JVal) (path : String)
  | uploadBackgroundCall (gameId : JVal) (path : String)
  | saveMapCall (m : List (String × MapEntry))
  deriving DecidableEq, Repr

/-- The pure environment: remote responses and filesystem contents are
fixed functions, i.e. an unchanged remote catalog and source filesystem.
`createError` is the outcome of `createGameViaAPI` for a payload: `none`
when the call succeeds, `some msg` when it throws an error whose message
is `msg`. -/
structure Env where
  search : String → Option Int → List IgdbGame
  details : JVal → Option FullGameData
  createError : GameData → Option String
  fsExists : String → Bool
  existingIds : List Int
  yearToTs : Int → Int

/-- `needle` occurs as a contiguous sublist of `hay`
(JS `String.prototype.includes` on the character lists). -/
def listContains (needle : List Char) : List Char → Bool
  | [] => needle.isEmpty
  | c :: rest => needle.isPrefixOf (c :: rest) || listContains needle rest

/-- The catch clause around `createGameViaAPI`: an error whose message
contains `409` or `already exists` means the game already exists and is
tolerated; any other error is rethrown. -/
def createTolerated (msg : String) : Bool :=
  listContains "409".data msg.data || listContains "already exists".data msg.data

/-- The observable outcome of the guarded create call: `none` when the
call succeeds or its error is tolerated as already-exists, `some msg`
when the error `msg` propagates out of `importGame`. -/
def createOutcome (env : Env) (gd : GameData) : Option String :=
  match env.createError gd with
  | none => none
  | some msg => if createTolerated msg then none else some msg

/-- The option bag taken by `importGame`. -/
structure ImportOptions where
  igdbId : Option JVal := none
  skipSearch : Bool := false
  skipCreate : Bool := false
  skipIgdbFetch : Bool := false
  existingGameIds : List JVal := []
  deriving DecidableEq, Repr

/-! ### JSON values and `loadReleaseKeyMap` -/

/-- Parsed JSON values, as produced by `JSON.parse`. -/
inductive Json where
  | jnull
  | jbool (b : Bool)
  | jnum (n : Int)
  | jstr (s : String)
  | jarr (elems : List Json)
  | jobj (fields : List (String × Json))

/-- JS `typeof x === 'object'` (true for `null`, arrays and objects). -/
def isObjLike : Json → Bool
  | .jnull => true
  | .jarr _ => true
  | .jobj _ => true
  | _ => false

/-- JS truthiness of a JSON value. -/
def jsonTruthy : Json → Bool
  | .jnull => false
  | .jbool b => b
  | .jnum n => n ≠ 0
  | .jstr s => s ≠ ""
  | .jarr _ => true
  | .jobj _ => true

/-- `Object.entries(raw)` for the two object-like shapes that pass the
`raw && typeof raw === 'object'` guard (arrays enumerate by index). -/
def objEntries : Json → List (String × Json)
  | .jobj fields => fields
  | .jarr es => (es.enum.map fun p => (toString p.1, p.2))
  | _ => []

/-- What `loadReleaseKeyMap` returns: the in-memory map, whether the file
existed, and whether the malformed-file warning was logged. -/
structure LoadResult where
  importMap : List (String × Json)
  existed : Bool
  warned : Bool

/-- One entry of the load loop: skip falsy keys, keep object entries, wrap
bare values as `{igdbId: entry}`. -/
def loadEntryStep (acc : List (String × Json)) (kv : String × Json) :
    List (String × Json) :=
  let releaseKey := kv.1
  let entry := kv.2
  if releaseKey = "" then acc
  else if jsonTruthy entry ∧ isObjLike entry then setKey acc releaseKey entry
  else setKey acc releaseKey (.jobj [("igdbId", entry)])

/-- `loadReleaseKeyMap`.  The input models the state of the map file:
`none` when `fs.existsSync` is false, `some none` when reading or
`JSON.parse` throws, `some (some raw)` when it parses to `raw`. -/
def loadReleaseKeyMap : Option (Option Json) → LoadResult
  | none => ⟨[], false, false⟩
  | some none => ⟨[], true, true⟩
  | some (some raw) =>
    let m :=
      if jsonTruthy raw ∧ isObjLike raw then
        (objEntries raw).foldl loadEntryStep []
      else []
    ⟨m, true, false⟩

/-! ### Small pure helpers of the importer -/

/-- `formatReleaseDateForMap` restricted to the numeric `releaseDate`
values the pipeline produces (`null`, an IGDB year, or a Unix-seconds
timestamp). -/
def formatReleaseDateForMap (releaseDate : Option Int) : Option String :=
  match releaseDate with
  | none => none
  | some n =>
    if (toString n).length ≤ 4 then some (toString n)
    else some (isoDateOfTimestamp n)

/-- `s.endsWith(suffix)`, modelled on the character list so that it
evaluates inside the kernel. -/
def strEndsWith (s suffix : String) : Bool :=
  suffix.data.isSuffixOf s.data

/-- `s.slice(0, -n)`: drop the last `n` characters. -/
def strDropRight (s : String) (n : Nat) : String :=
  String.mk (s.data.take (s.data.length - n))

/-- The executable display label: `exec.label || 'script'`, then strip one
trailing `.bat` or `.sh`. -/
def cleanLabel (lbl : Option String) : String :=
  let label := if strTruthy lbl then lbl.getD "" else "script"
  if strEndsWith label ".bat" then strDropRight label 4
  else if strEndsWith label ".sh" then strDropRight label 3
  else label

/-- `myRating !== null && myRating !== undefined ? myRating * 2 : null`. -/
def starsOfRating (myRating : Option Int) : Option Int :=
  match myRating with
  | some r => some (r * 2)
  | none => none

/-- The ordered cover-image probe patterns. -/
def coverPatterns (galaxyImagesPath releaseKey : String) : List String :=
  [galaxyImagesPath ++ "/" ++ releaseKey ++ "_cover.jpg",
   galaxyImagesPath ++ "/" ++ releaseKey ++ "_cover.png",
   galaxyImagesPath ++ "/" ++ releaseKey ++ ".jpg",
   galaxyImagesPath ++ "/" ++ releaseKey ++ ".png"]

/-- The ordered background-image probe patterns. -/
def backgroundPatterns (galaxyImagesPath releaseKey : String) : List String :=
  [galaxyImagesPath ++ "/" ++ releaseKey ++ "_background.jpg",
   galaxyImagesPath ++ "/" ++ releaseKey ++ "_background.png",
   galaxyImagesPath ++ "/" ++ releaseKey ++ "_hero.jpg",
   galaxyImagesPath ++ "/" ++ releaseKey ++ "_hero.png"]

/-- The seen-set loop of `importCollections` that removes duplicate game
ids before the membership call, keeping the first occurrence. -/
def dedupGameIdsGo (seen : List Int) : List Int → List Int
  | [] => []
  | gid :: rest =>
    if gid ∈ seen then dedupGameIdsGo seen rest
    else gid :: dedupGameIdsGo (seen ++ [gid]) rest

/-- `uniqueGameIds` as computed from `gameIds` in `importCollections`. -/
def dedupGameIds (gameIds : List Int) : List Int :=
  dedupGameIdsGo [] gameIds

/-- The argument pair of the
`updateCollectionGamesViaAPI(collectionId, uniqueGameIds, ...)` call. -/
def collectionUpdateArgs (collectionId : Int) (gameIds : List Int) :
    Int × List Int :=
  (collectionId, dedupGameIds gameIds)

/-! ### The reducing-title search -/

/-- Fuel-indexed unfolding of the `while (searchTitle)` loop of
`searchGameWithReducingTitle`: yields the `{igdbGames, usedTitle}` result
together with the list of title strings actually sent to the remote
search, in order.  One fuel unit is spent per search attempt; the word
count of the trimmed title is enough fuel, since every retry drops one
word. -/
def reduceAux (search : String → List IgdbGame) : Nat → String →
    (List IgdbGame × Option String) × List String
  | 0, _ => (([], none), [])
  | fuel + 1, s =>
    if s = "" then (([], none), [])
    else
      let r := search s
      if r.length > 0 then ((r, some s), [s])
      else
        let words := wsWords s
        if words.length ≤ 1 then (([], none), [s])
        else
          let nextTitle := joinWords words.dropLast
          if nextTitle = "" then (([], none), [s])
          else
            let res := reduceAux search fuel nextTitle
            (res.1, s :: res.2)

/-- `searchGameWithReducingTitle` (trimming the title, then dropping the
last whitespace-delimited word on every empty result until a hit or a
single word remains). -/
def searchGameWithReducingTitle (search : String → List IgdbGame)
    (title : String) : (List IgdbGame × Option String) × List String :=
  reduceAux search (wsWords (trimWs title)).length (trimWs title)

/-- The outer `for (const title of titlesToTry)` loop of `importGame`:
run the reducing search on each candidate title, stopping at the first
title whose reduction chain yields a non-empty result. -/
def searchPhase (search : String → List IgdbGame) :
    List String → (List IgdbGame × Option String) × List String
  | [] => (([], none), [])
  | t :: rest =>
    let r := searchGameWithReducingTitle search t
    if (r.1.1).length > 0 then r
    else
      let r2 := searchPhase search rest
      (r2.1, r.2 ++ r2.2)

/-! ### `importGame` (most recent revision) -/

/-- `releaseDateForSearch`: the GOG timestamp when present, otherwise the
timestamp of Jan 1 of the release year, otherwise `null`. -/
def releaseDateForSearchOf (env : Env) (gogReleaseDate : Option Int)
    (releaseYear : Option Int) : Option Int :=
  match gogReleaseDate with
  | some ts => some ts
  | none =>
    match releaseYear with
    | some y => some (env.yearToTs y)
    | none => none

/-- Candidate selection: `notExisting.length > 0 ? notExisting[0] :
igdbGames[0]`, where `notExisting` filters out the already-cataloged ids. -/
def selectCandidate (igdbGames : List IgdbGame) (existingGameIds : List JVal) :
    Option IgdbGame :=
  match igdbGames with
  | [] => none
  | g0 :: _ =>
    match igdbGames.filter (fun g => ¬ existingGameIds.contains (JVal.num g.id)) with
    | g :: _ => some g
    | [] => some g0

/-- `previousObject.title || result.title || null`. -/
def jsOrSN (a : Option String) (b : String) : Option String :=
  if strTruthy a then a else if b ≠ "" then some b else none

/-- `x || null` for a `string | null` value. -/
def jsNullIfFalsyS (x : Option String) : Option String :=
  if strTruthy x then x else none

/-- `importGame` of the most recent importer revision.  Returns the
`{gameId, igdbId, title, releaseDate, stars}` result (or `null` when no
search result was found with any title), or propagates the error thrown
by a failed, non-tolerated `createGameViaAPI` call (`Except.error`),
together with the ordered trace of remote calls and uploads it performed
up to that point. -/
def importGame (env : Env) (gameTitles : List String) (releaseKey : String)
    (executables : List ExecEntry) (galaxyImagesPath : String)
    (myRating : Option Int) (releaseYear : Option Int)
    (gogReleaseDate : Option Int) (options : ImportOptions) :
    Except String (Option ImportResult) × List Call :=
  let titlesToTry := gameTitles
  let primaryTitle := titlesToTry.headD ""
  let releaseDateForSearch := releaseDateForSearchOf env gogReleaseDate releaseYear
  let searchBranch : Option (JVal × String) × List Call :=
    let sp := searchPhase (fun t => env.search t releaseDateForSearch) titlesToTry
    let calls := sp.2.map (fun t => Call.searchCall t releaseDateForSearch)
    match selectCandidate sp.1.1 options.existingGameIds with
    | some chosen => (some (JVal.num chosen.id, chosen.name), calls)
    | none => (none, calls)
  let phase1 :=
    match options.igdbId with
    | some v => if jvalTruthy v then (some (v, primaryTitle), ([] : List Call)) else searchBranch
    | none => searchBranch
  match phase1 with
  | (none, calls1) => (Except.ok none, calls1)
  | (some (gameId, igdbName), calls1) =>
    let detailsRes : Option FullGameData × List Call :=
      if options.skipIgdbFetch then (none, [])
      else (env.details gameId, [Call.getDetailsCall gameId])
    let fullGameData := detailsRes.1
    let igdbReleaseDateFull := jsNullIfFalsy (fullGameData.bind (·.releaseDateFullTs))
    let igdbReleaseDate := jsNullIfFalsy (fullGameData.bind (·.releaseDate))
    let releaseDate :=
      jsOrI (jsOrI igdbReleaseDateFull igdbReleaseDate) (jsNullIfFalsy gogReleaseDate)
    let stars := starsOfRating myRating
    let gameData : GameData :=
      { igdbId := gameId,
        name := jsOrS (fullGameData.bind (·.name)) igdbName,
        releaseDate := releaseDate,
        stars := stars }
    let createCalls := if options.skipCreate then [] else [Call.createGameCall gameData]
    let createFailure : Option String :=
      if options.skipCreate then none else createOutcome env gameData
    let execCalls := executables.flatMap (fun e =>
      if e.path = "" then []
      else if env.fsExists e.path then
        [Call.uploadExecCall gameId e.path (cleanLabel e.label)]
      else [])
    let coverCalls :=
      match (coverPatterns galaxyImagesPath releaseKey).find? env.fsExists with
      | some p => [Call.uploadCoverCall gameId p]
      | none => []
    let bgCalls :=
      match (backgroundPatterns galaxyImagesPath releaseKey).find? env.fsExists with
      | some p => [Call.uploadBackgroundCall gameId p]
      | none => []
    let imgCalls := if releaseKey = "" then [] else coverCalls ++ bgCalls
    let result : ImportResult :=
      { gameId := gameId, igdbId := gameId,
        title := gameData.name,
        releaseDate := formatReleaseDateForMap releaseDate,
        stars := stars }
    match createFailure with
    | some msg => (Except.error msg, calls1 ++ detailsRes.2 ++ createCalls)
    | none =>
      (Except.ok (some result),
       calls1 ++ detailsRes.2 ++ createCalls ++ execCalls ++ imgCalls)

/-! ### The row-grouping loop -/

/-- First sight of a releaseKey: seed its aggregate from this row. -/
def seedAgg (row : GameRow) : GroupAgg :=
  { titles := [row.title],
    title := row.title,
    executables := [],
    executableSet := [],
    myRating := jsNullIfFalsy row.myRating,
    releaseYear :=
      match row.releaseDate with
      | some ts => if ts = 0 then none else some (yearOfTimestamp ts)
      | none => none,
    releaseDate := jsNullIfFalsy row.releaseDate }

/-- Repeat sighting: collect a new title, and backfill rating / year / raw
date only when still unset. -/
def backfillAgg (g : GroupAgg) (row : GameRow) : GroupAgg :=
  { g with
    titles :=
      if row.title ≠ "" ∧ ¬ g.titles.contains row.title then g.titles ++ [row.title]
      else g.titles,
    myRating :=
      if ¬ intTruthy g.myRating ∧ intTruthy row.myRating then row.myRating
      else g.myRating,
    releaseYear :=
      if ¬ intTruthy g.releaseYear ∧ intTruthy row.releaseDate then
        some (yearOfTimestamp (row.releaseDate.getD 0))
      else g.releaseYear,
    releaseDate :=
      if ¬ intTruthy g.releaseDate ∧ intTruthy row.releaseDate then row.releaseDate
      else g.releaseDate }

/-- Append this row's executable unless its `path|label` key was seen. -/
def addExecRow (g : GroupAgg) (path : String) (label : Option String) : GroupAgg :=
  let executableKey := path ++ "|" ++ label.getD ""
  if executableKey ∈ g.executableSet then g
  else
    { g with
      executableSet := g.executableSet ++ [executableKey],
      executables := g.executables ++
        [{ path := path, label := if strTruthy label then label else none }] }

/-- One iteration of `for (const game of games)` in the grouping loop. -/
def groupStep (m : List (String × GroupAgg)) (row : GameRow) :
    List (String × GroupAgg) :=
  match row.releaseKey with
  | none => m
  | some releaseKey =>
    if releaseKey = "" then m
    else
      let m1 :=
        if containsKey m releaseKey then
          updateKey m releaseKey (fun g => backfillAgg g row)
        else m ++ [(releaseKey, seedAgg row)]
      match row.executablePath with
      | some p =>
        if p = "" then m1
        else updateKey m1 releaseKey (fun g => addExecRow g p row.label)
      | none => m1

/-- The whole grouping loop. -/
def groupRows (rows : List GameRow) : List (String × GroupAgg) :=
  rows.foldl groupStep []

/-- The cleanup after grouping (`delete gameData.executableSet`,
`titles = Array.from(titles)`). -/
def finalizeAgg (g : GroupAgg) : GameAgg :=
  { titles := g.titles, title := g.title, executables := g.executables,
    myRating := g.myRating, releaseYear := g.releaseYear,
    releaseDate := g.releaseDate }

/-- `gamesByReleaseKey` as handed to the import loop. -/
def gamesByReleaseKey (rows : List GameRow) : List (String × GameAgg) :=
  (groupRows rows).map (fun kv => (kv.1, finalizeAgg kv.2))

/-! ### The games loop of `importFromGOGGalaxy` -/

/-- The loop state: the in-memory import map, its dirty flag, the growing
set of already-cataloged ids, the two counters, and — as instrumentation —
the releaseKeys for which `importGame` was invoked / succeeded, and the
trace of all effects. -/
structure RunState where
  importMap : List (String × MapEntry)
  importMapDirty : Bool
  existingGameIds : List JVal
  successCount : Nat
  skipCount : Nat
  invoked : List String
  succeeded : List String
  trace : List Call
  deriving DecidableEq, Repr

/-- `entry?.igdbId || entry`: the stored id when it is a truthy number,
otherwise the entry object itself. -/
def existingIdOf (e : MapEntry) : JVal :=
  match e.igdbId with
  | some n => if n = 0 then JVal.obj else JVal.num n
  | none => JVal.obj

/-- The numeric content of a `JVal` stored back into `importMap.igdbId`
(a forced reimport whose stored id was not a number would write the raw
object back; that degenerate corner is modelled as an absent id). -/
def jvalIdField : JVal → Option Int
  | .num n => some n
  | .obj => none

/-- One iteration of `for (const [releaseKey, gameData] of
gamesByReleaseKey)` in the games loop; an error thrown by `importGame`
(a failed create) is caught per release and counted as skipped. -/
def runStep (env : Env) (galaxyImagesPath : String) (upload : Bool)
    (st : RunState) (kv : String × GameAgg) : RunState :=
  let releaseKey := kv.1
  let gameData := kv.2
  let existingEntry := lookupKey st.importMap releaseKey
  let existingIgdbId : Option JVal := existingEntry.map existingIdOf
  let existingTruthy :=
    match existingIgdbId with
    | some v => jvalTruthy v
    | none => false
  let shouldForceUpload := upload && existingTruthy
  if existingTruthy && !shouldForceUpload then
    { st with skipCount := st.skipCount + 1 }
  else
    let opts : ImportOptions :=
      if shouldForceUpload then
        { igdbId := existingIgdbId, skipSearch := true, skipCreate := true,
          skipIgdbFetch := true }
      else { existingGameIds := st.existingGameIds }
    let res := importGame env gameData.titles releaseKey gameData.executables
      galaxyImagesPath gameData.myRating gameData.releaseYear
      (jsNullIfFalsy gameData.releaseDate) opts
    let st1 := { st with invoked := st.invoked ++ [releaseKey],
                         trace := st.trace ++ res.2 }
    match res.1 with
    | Except.ok (some result) =>
      if jvalTruthy result.gameId then
        let st2 :=
          { st1 with
            successCount := st1.successCount + 1,
            existingGameIds :=
              if st1.existingGameIds.contains result.igdbId then st1.existingGameIds
              else st1.existingGameIds ++ [result.igdbId],
            succeeded := st1.succeeded ++ [releaseKey] }
        if jvalTruthy result.igdbId then
          let previousObject := (lookupKey st2.importMap releaseKey).getD {}
          let newEntry : MapEntry :=
            { igdbId := jvalIdField result.igdbId,
              title := jsOrSN previousObject.title result.title,
              releaseDate :=
                if previousObject.releaseDate.isSome then previousObject.releaseDate
                else jsNullIfFalsyS result.releaseDate,
              stars :=
                if previousObject.stars.isSome then previousObject.stars
                else result.stars }
          { st2 with importMap := setKey st2.importMap releaseKey newEntry,
                     importMapDirty := true }
        else st2
      else { st1 with skipCount := st1.skipCount + 1 }
    | Except.ok none => { st1 with skipCount := st1.skipCount + 1 }
    | Except.error _ => { st1 with skipCount := st1.skipCount + 1 }

/-- The games-import phase of `importFromGOGGalaxy`: pre-fetch the
existing game ids, loop over the grouped releases, then save the import
map once at the end when dirty. -/
def importFromGOGGalaxyGames (env : Env) (map0 : List (String × MapEntry))
    (aggs : List (String × GameAgg)) (galaxyImagesPath : String)
    (upload : Bool) : RunState :=
  let st0 : RunState :=
    { importMap := map0, importMapDirty := false,
      existingGameIds := env.existingIds.map JVal.num,
      successCount := 0, skipCount := 0, invoked := [], succeeded := [],
      trace := [] }
  let st1 := aggs.foldl (runStep env galaxyImagesPath upload) st0
  if st1.importMapDirty then
    { st1 with trace := st1.trace ++ [Call.saveMapCall st1.importMap] }
  else st1

/-! ### Specification-side view of the reducing-title search

The reduction chain of a title: the successive search strings obtained by
repeatedly dropping the last whitespace-delimited word, stopping when only
one word remains. -/

/-- Drop the last whitespace-delimited word (`words.pop(); words.join(' ')`). -/
def nextTitle (s : String) : String :=
  joinWords (wsWords s).dropLast

/-- Fuel-indexed reduction chain of search strings. -/
def titleChainAux : Nat → String → List String
  | 0, _ => []
  | fuel + 1, s =>
    if s = "" then []
    else
      let words := wsWords s
      if words.length ≤ 1 then [s]
      else
        let nt := nextTitle s
        if nt = "" then [s]
        else s :: titleChainAux fuel nt

/-- The reduction chain of a (trimmed) title: the exact sequence of search
strings the reducing search will try, in order. -/
def titleChain (s : String) : List String :=
  titleChainAux (wsWords s).length s

/-- Whether the reducing search succeeds for a candidate title. -/
def chainHasHit (search : String → List IgdbGame) (t : String) : Bool :=
  ((searchGameWithReducingTitle search t).1.1) ≠ []

/-! ### Word-splitting lemmas -/

theorem splitPieces_ne_nil (l : List Char) : splitPieces l ≠ [] := by
  induction l with
  | nil => simp [splitPieces]
  | cons c cs ih =>
    simp only [splitPieces]
    by_cases h : c.isWhitespace
    · simp [h]
    · simp only [h, if_neg, Bool.false_eq_true, not_false_eq_true, ite_false]
      cases hr : splitPieces cs with
      | nil => simp
      | cons w ws => simp

theorem splitPieces_no_ws (l : List Char) :
    ∀ w ∈ splitPieces l, ∀ c ∈ w, ¬ c.isWhitespace := by
  induction l with
  | nil =>
    intro w hw c hc
    simp [splitPieces] at hw
    subst hw
    simp at hc
  | cons a as ih =>
    intro w hw c hc
    simp only [splitPieces] at hw
    by_cases h : a.isWhitespace
    · simp only [h, if_true] at hw
      rcases List.mem_cons.mp hw with h1 | h2
      · subst h1; simp at hc
      · exact ih w h2 c hc
    · simp only [h, Bool.false_eq_true, if_false] at hw
      cases hr : splitPieces as with
      | nil => exact absurd hr (splitPieces_ne_nil as)
      | cons w0 ws0 =>
        rw [hr] at hw
        rcases List.mem_cons.mp hw with h1 | h2
        · subst h1
          rcases List.mem_cons.mp hc with h3 | h4
          · subst h3; exact h
          · exact ih w0 (hr ▸ List.mem_cons_self w0 ws0) c h4
        · exact ih w (hr ▸ List.mem_cons_of_mem w0 h2) c hc

/-- Prepending a run of non-whitespace characters extends the first piece. -/
theorem splitPieces_append (w l : List Char) (hw : ∀ c ∈ w, ¬ c.isWhitespace)
    {h : List Char} {t : List (List Char)} (hl : splitPieces l = h :: t) :
    splitPieces (w ++ l) = (w ++ h) :: t := by
  induction w with
  | nil => simpa using hl
  | cons c cs ih =>
    have hc : ¬ c.isWhitespace := hw c (List.mem_cons_self c cs)
    have hcs : ∀ x ∈ cs, ¬ x.isWhitespace := fun x hx => hw x (List.mem_cons_of_mem c hx)
    have hih := ih hcs
    simp only [List.cons_append, splitPieces, hc, Bool.false_eq_true, if_false]
    rw [show cs.append l = cs ++ l from rfl, hih]

/-- A word produced by whitespace splitting: non-empty, no whitespace. -/
def goodWord (w : String) : Prop :=
  w.data ≠ [] ∧ ∀ c ∈ w.data, ¬ c.isWhitespace

theorem mkData (s : String) : String.mk s.data = s := by
  cases s
  rfl

theorem wsWords_good (s : String) : ∀ w ∈ wsWords s, goodWord w := by
  intro w hw
  simp only [wsWords, List.mem_map, List.mem_filter] at hw
  obtain ⟨piece, ⟨hmem, hne⟩, hmk⟩ := hw
  subst hmk
  refine ⟨by simpa using hne, ?_⟩
  intro c hc
  exact splitPieces_no_ws s.data piece hmem c hc

theorem data_ne_nil_iff (s : String) : s.data ≠ [] ↔ s ≠ "" := by
  constructor
  · intro h he
    subst he
    exact h rfl
  · intro h hd
    apply h
    have hs : s = String.mk s.data := (mkData s).symm
    rw [hs, hd]

theorem wsWords_single (w : String) (hgood : goodWord w) : wsWords w = [w] := by
  obtain ⟨hne, hnws⟩ := hgood
  have h0 : splitPieces ([] : List Char) = [] :: [] := rfl
  have h1 : splitPieces (w.data ++ []) = (w.data ++ []) :: [] :=
    splitPieces_append w.data [] hnws h0
  rw [List.append_nil] at h1
  simp only [wsWords, h1]
  rw [List.filter_cons_of_pos (by simpa using hne)]
  simp [mkData]

theorem wsWords_join (ws : List String) (h : ∀ w ∈ ws, goodWord w) :
    wsWords (joinWords ws) = ws := by
  induction ws with
  | nil => rfl
  | cons w rest ih =>
    cases rest with
    | nil =>
      simp only [joinWords]
      exact wsWords_single w (h w (List.mem_cons_self w []))
    | cons w' rest' =>
      have hw : goodWord w := h w (List.mem_cons_self _ _)
      have hrest : ∀ x ∈ w' :: rest', goodWord x := fun x hx =>
        h x (List.mem_cons_of_mem w hx)
      have hih := ih hrest
      show wsWords (w ++ " " ++ joinWords (w' :: rest')) = w :: w' :: rest'
      have hdata : (w ++ " " ++ joinWords (w' :: rest')).data =
          w.data ++ ' ' :: (joinWords (w' :: rest')).data := by
        simp [String.data_append]
      cases hsp : splitPieces (joinWords (w' :: rest')).data with
      | nil => exact absurd hsp (splitPieces_ne_nil _)
      | cons p ps =>
        have hws : splitPieces (' ' :: (joinWords (w' :: rest')).data) =
            [] :: p :: ps := by
          simp only [splitPieces]
          rw [if_pos (by decide), hsp]
        have happ := splitPieces_append w.data
          (' ' :: (joinWords (w' :: rest')).data) hw.2 hws
        rw [List.append_nil] at happ
        have hihpieces :
            (List.filter (fun x => x ≠ []) (p :: ps)).map String.mk = w' :: rest' := by
          simpa [wsWords, hsp] using hih
        simp only [wsWords, hdata, happ]
        rw [List.filter_cons_of_pos (by simpa using hw.1)]
        simp only [List.map_cons, mkData]
        rw [hihpieces]

theorem joinWords_ne_empty (w : String) (ws : List String) (hw : w.data ≠ []) :
    joinWords (w :: ws) ≠ "" := by
  cases ws with
  | nil =>
    simpa only [joinWords] using (data_ne_nil_iff w).mp hw
  | cons w' rest =>
    have hjw : joinWords (w :: w' :: rest) = w ++ " " ++ joinWords (w' :: rest) := rfl
    intro h
    rw [hjw] at h
    have hd := congrArg String.data h
    rw [String.data_append, String.data_append] at hd
    simp at hd

theorem wsWords_nextTitle (s : String) :
    wsWords (nextTitle s) = (wsWords s).dropLast := by
  unfold nextTitle
  apply wsWords_join
  intro w hw
  exact wsWords_good s w (List.dropLast_subset _ hw)

/-! ### Characterization of the reducing-title search -/

/-- The result and search trace that the specification predicts: scan the
reduction chain for the first string with a non-empty result. -/
def reducingSearchSpec (search : String → List IgdbGame) (title : String) :
    (List IgdbGame × Option String) × List String :=
  let chain := titleChain (trimWs title)
  match chain.find? (fun t => decide (search t ≠ [])) with
  | some t =>
    ((search t, some t), chain.takeWhile (fun t => decide (search t = [])) ++ [t])
  | none => (([], none), chain)

theorem reduceAux_eq_chain (search : String → List IgdbGame) :
    ∀ (fuel : Nat) (s : String),
    reduceAux search fuel s =
      (match (titleChainAux fuel s).find? (fun t => decide (search t ≠ [])) with
       | some t => (search t, some t)
       | none => ([], none),
       match (titleChainAux fuel s).find? (fun t => decide (search t ≠ [])) with
       | some t =>
         (titleChainAux fuel s).takeWhile (fun t => decide (search t = [])) ++ [t]
       | none => titleChainAux fuel s) := by
  intro fuel
  induction fuel with
  | zero => intro s; rfl
  | succ f ih =>
    intro s
    by_cases hs : s = ""
    · simp [reduceAux, titleChainAux, hs]
    · by_cases hr : search s = []
      · have hlen : ¬ 0 < (search s).length := by simp [hr]
        by_cases h1 : (wsWords s).length ≤ 1
        · have hred : reduceAux search (f + 1) s = (([], none), [s]) := by
            simp [reduceAux, hs, hlen, h1]
          have hch : titleChainAux (f + 1) s = [s] := by
            simp [titleChainAux, hs, h1]
          rw [hred, hch, List.find?_cons_of_neg _ (by simp [hr])]
          rfl
        · by_cases h2 : nextTitle s = ""
          · have h2' : joinWords (wsWords s).dropLast = "" := h2
            have hred : reduceAux search (f + 1) s = (([], none), [s]) := by
              simp [reduceAux, hs, hlen, h1, h2']
            have hch : titleChainAux (f + 1) s = [s] := by
              simp [titleChainAux, hs, h1, h2]
            rw [hred, hch, List.find?_cons_of_neg _ (by simp [hr])]
            rfl
          · have h2' : ¬ joinWords (wsWords s).dropLast = "" := h2
            have hred : reduceAux search (f + 1) s =
                ((reduceAux search f (nextTitle s)).1,
                  s :: (reduceAux search f (nextTitle s)).2) := by
              simp only [reduceAux, if_neg hs, if_neg hlen, if_neg h1, if_neg h2']
              rfl
            have hch : titleChainAux (f + 1) s =
                s :: titleChainAux f (nextTitle s) := by
              simp only [titleChainAux, if_neg hs, if_neg h1, if_neg h2]
            rw [hred, hch, ih (nextTitle s),
              List.find?_cons_of_neg _ (by simp [hr])]
            cases hfind : (titleChainAux f (nextTitle s)).find?
                (fun t => decide (search t ≠ [])) with
            | some t =>
              rw [show (s :: titleChainAux f (nextTitle s)).takeWhile
                  (fun t => decide (search t = [])) =
                  s :: (titleChainAux f (nextTitle s)).takeWhile
                    (fun t => decide (search t = [])) from by
                simp [List.takeWhile_cons, hr]]
              rfl
            | none =>
              rfl
      · have hlen : 0 < (search s).length := List.length_pos.mpr hr
        have hred : reduceAux search (f + 1) s = ((search s, some s), [s]) := by
          simp [reduceAux, hs, hlen]
        have hfind : ∀ rest : List String,
            (s :: rest).find? (fun t => decide (search t ≠ [])) = some s :=
          fun rest => List.find?_cons_of_pos _ (by simp [hr])
        have htake : ∀ rest : List String,
            (s :: rest).takeWhile (fun t => decide (search t = []))
            = ([] : List String) := by
          intro rest
          simp [List.takeWhile_cons, hr]
        rw [hred]
        by_cases h1 : (wsWords s).length ≤ 1
        · have hch : titleChainAux (f + 1) s = [s] := by
            simp [titleChainAux, hs, h1]
          rw [hch, hfind [], htake []]
          rfl
        · by_cases h2 : nextTitle s = ""
          · have hch : titleChainAux (f + 1) s = [s] := by
              simp [titleChainAux, hs, h1, h2]
            rw [hch, hfind [], htake []]
            rfl
          · have hch : titleChainAux (f + 1) s =
                s :: titleChainAux f (nextTitle s) := by
              simp only [titleChainAux, if_neg hs, if_neg h1, if_neg h2]
            rw [hch, hfind _, htake _]
            rfl

/-- The implementation equals the chain-scan specification. -/
theorem searchGameWithReducingTitle_eq_spec (search : String → List IgdbGame)
    (title : String) :
    searchGameWithReducingTitle search title = reducingSearchSpec search title := by
  simp only [searchGameWithReducingTitle, reducingSearchSpec, titleChain]
  rw [reduceAux_eq_chain search (wsWords (trimWs title)).length (trimWs title)]
  cases hfind : (titleChainAux (wsWords (trimWs title)).length
      (trimWs title)).find? (fun t => decide (search t ≠ [])) with
  | some t => rfl
  | none => rfl

theorem titleChainAux_head? (fuel : Nat) (s : String) :
    titleChainAux fuel s = [] ∨ (titleChainAux fuel s).head? = some s := by
  cases fuel with
  | zero => left; rfl
  | succ f =>
    by_cases hs : s = ""
    · left; simp [titleChainAux, hs]
    · right
      simp only [titleChainAux, if_neg hs]
      split_ifs <;> rfl

theorem titleChainAux_ne_nil (f : Nat) (s : String) (hs : s ≠ "") :
    titleChainAux (f + 1) s ≠ [] := by
  simp only [titleChainAux, if_neg hs]
  split_ifs <;> simp

/-- Consecutive entries of the reduction chain: each is obtained from the
previous one by dropping the last whitespace-delimited word. -/
theorem titleChainAux_chain (fuel : Nat) :
    ∀ s : String, List.Chain' (fun a b => b = nextTitle a) (titleChainAux fuel s) := by
  induction fuel with
  | zero => intro s; simp [titleChainAux]
  | succ f ih =>
    intro s
    by_cases hs : s = ""
    · simp [titleChainAux, hs]
    · simp only [titleChainAux, if_neg hs]
      split_ifs with h1 h2
      · simp
      · simp
      · refine List.chain'_cons'.mpr ⟨?_, ih (nextTitle s)⟩
        intro b hb
        rcases titleChainAux_head? f (nextTitle s) with hnil | hhead
        · rw [hnil] at hb
          simp at hb
        · rw [hhead] at hb
          simp at hb
          exact hb.symm

/-- With enough fuel (one unit per word), the reduction chain ends at a
string of at most one word: the search never reduces past a single word. -/
theorem titleChainAux_last (fuel : Nat) :
    ∀ (s : String), (wsWords s).length ≤ fuel →
    ∀ t, (titleChainAux fuel s).getLast? = some t → (wsWords t).length ≤ 1 := by
  induction fuel with
  | zero =>
    intro s _ t ht
    simp [titleChainAux] at ht
  | succ f ih =>
    intro s hfuel t ht
    by_cases hs : s = ""
    · simp [titleChainAux, hs] at ht
    · simp only [titleChainAux, if_neg hs] at ht
      by_cases h1 : (wsWords s).length ≤ 1
      · rw [if_pos h1] at ht
        simp at ht
        subst ht
        exact h1
      · rw [if_neg h1] at ht
        have hwords := wsWords_nextTitle s
        have hlen : (wsWords (nextTitle s)).length = (wsWords s).length - 1 := by
          rw [hwords, List.length_dropLast]
        have hnt : nextTitle s ≠ "" := by
          cases hd : (wsWords s).dropLast with
          | nil =>
            exfalso
            have := congrArg List.length hd
            simp [List.length_dropLast] at this
            omega
          | cons w rest =>
            have hwmem : w ∈ wsWords s := List.dropLast_subset _ (hd ▸ List.mem_cons_self w rest)
            have hgood := wsWords_good s w hwmem
            unfold nextTitle
            rw [hd]
            exact joinWords_ne_empty w rest hgood.1
        rw [if_neg hnt] at ht
        have hchne : titleChainAux f (nextTitle s) ≠ [] := by
          cases hf : f with
          | zero =>
            exfalso
            have : (wsWords s).length ≤ 1 := by omega
            exact h1 this
          | succ f' => exact titleChainAux_ne_nil f' (nextTitle s) hnt
        cases hc : titleChainAux f (nextTitle s) with
        | nil => exact absurd hc hchne
        | cons b bs =>
          rw [hc, List.getLast?_cons_cons] at ht
          exact ih (nextTitle s) (by omega) t (by rw [hc]; exact ht)

/-- The outer title loop: earlier titles are exhausted (their whole
reduction chain is searched) before the next title is attempted, and the
result comes from the first title whose chain has a hit. -/
theorem searchPhase_eq (search : String → List IgdbGame) (titles : List String) :
    searchPhase search titles =
      (match titles.find? (chainHasHit search) with
       | some t => (searchGameWithReducingTitle search t).1
       | none => ([], none),
       ((titles.takeWhile (fun t => !(chainHasHit search t))) ++
         (match titles.find? (chainHasHit search) with
          | some t => [t]
          | none => [])).flatMap
         (fun u => (searchGameWithReducingTitle search u).2)) := by
  induction titles with
  | nil => rfl
  | cons t rest ih =>
    by_cases hh : (searchGameWithReducingTitle search t).1.1 = []
    · have hlen : ¬ 0 < ((searchGameWithReducingTitle search t).1.1).length := by
        simp [hh]
      have hstep : searchPhase search (t :: rest) =
          ((searchPhase search rest).1,
            (searchGameWithReducingTitle search t).2 ++ (searchPhase search rest).2) := by
        simp only [searchPhase, if_neg hlen]
      have hch : chainHasHit search t = false := by simp [chainHasHit, hh]
      rw [hstep, ih, List.find?_cons_of_neg _ (by simp [hch]),
        show (t :: rest).takeWhile (fun u => !(chainHasHit search u)) =
          t :: rest.takeWhile (fun u => !(chainHasHit search u)) from by
            simp [List.takeWhile_cons, hch]]
      cases hf : rest.find? (chainHasHit search) with
      | some u => simp
      | none => simp
    · have hlen : 0 < ((searchGameWithReducingTitle search t).1.1).length :=
        List.length_pos.mpr hh
      have hstep : searchPhase search (t :: rest) =
          searchGameWithReducingTitle search t := by
        simp only [searchPhase, if_pos hlen]
      have hch : chainHasHit search t = true := by simp [chainHasHit, hh]
      rw [hstep, List.find?_cons_of_pos _ (by simp [hch]),
        show (t :: rest).takeWhile (fun u => !(chainHasHit search u)) =
          ([] : List String) from by simp [List.takeWhile_cons, hch]]
      simp

end MHG

namespace MHG

/-! ### Lemmas about the collection-membership dedup loop -/

theorem dedupGo_congr (s1 s2 : List Int) (h : ∀ x, x ∈ s1 ↔ x ∈ s2) :
    ∀ l, dedupGameIdsGo s1 l = dedupGameIdsGo s2 l := by
  intro l
  induction l generalizing s1 s2 with
  | nil => rfl
  | cons b t ih =>
    simp only [dedupGameIdsGo]
    by_cases hb : b ∈ s1
    · rw [if_pos hb, if_pos ((h b).mp hb)]
      exact ih s1 s2 h
    · rw [if_neg hb, if_neg (fun hc => hb ((h b).mpr hc))]
      congr 1
      refine ih _ _ ?_
      intro x
      simp [h x]

theorem dedupGo_filter (a : Int) :
    ∀ (l : List Int) (seen : List Int),
    dedupGameIdsGo (seen ++ [a]) l = dedupGameIdsGo seen (l.filter (fun x => x ≠ a)) := by
  intro l
  induction l with
  | nil => intro seen; rfl
  | cons b t ih =>
    intro seen
    by_cases hba : b = a
    · subst hba
      have hfil : List.filter (fun x => decide (x ≠ b)) (b :: t) =
          List.filter (fun x => decide (x ≠ b)) t := by
        simp [List.filter_cons]
      rw [hfil]
      have hmem : b ∈ seen ++ [b] := by simp
      rw [show dedupGameIdsGo (seen ++ [b]) (b :: t) =
          dedupGameIdsGo (seen ++ [b]) t from by
        simp only [dedupGameIdsGo]
        rw [if_pos hmem]]
      exact ih seen
    · have hfil : List.filter (fun x => decide (x ≠ a)) (b :: t) =
          b :: List.filter (fun x => decide (x ≠ a)) t := by
        simp [List.filter_cons, hba]
      rw [hfil]
      by_cases hbs : b ∈ seen
      · have h1 : b ∈ seen ++ [a] := by simp [hbs]
        rw [show dedupGameIdsGo (seen ++ [a]) (b :: t) =
            dedupGameIdsGo (seen ++ [a]) t from by
          simp only [dedupGameIdsGo]
          rw [if_pos h1]]
        rw [show dedupGameIdsGo seen (b :: List.filter (fun x => decide (x ≠ a)) t) =
            dedupGameIdsGo seen (List.filter (fun x => decide (x ≠ a)) t) from by
          simp only [dedupGameIdsGo]
          rw [if_pos hbs]]
        exact ih seen
      · have h1 : b ∉ seen ++ [a] := by simp [hbs, hba]
        rw [show dedupGameIdsGo (seen ++ [a]) (b :: t) =
            b :: dedupGameIdsGo ((seen ++ [a]) ++ [b]) t from by
          simp only [dedupGameIdsGo]
          rw [if_neg h1]]
        rw [show dedupGameIdsGo seen (b :: List.filter (fun x => decide (x ≠ a)) t) =
            b :: dedupGameIdsGo (seen ++ [b]) (List.filter (fun x => decide (x ≠ a)) t) from by
          simp only [dedupGameIdsGo]
          rw [if_neg hbs]]
        congr 1
        have hswap : ∀ x, x ∈ (seen ++ [a]) ++ [b] ↔ x ∈ (seen ++ [b]) ++ [a] := by
          intro x
          simp
          tauto
        rw [dedupGo_congr _ _ hswap t]
        exact ih (seen ++ [b])

theorem dedupGo_nodup : ∀ (l seen : List Int),
    (dedupGameIdsGo seen l).Nodup ∧ ∀ x ∈ dedupGameIdsGo seen l, x ∉ seen := by
  intro l
  induction l with
  | nil => intro seen; simp [dedupGameIdsGo]
  | cons b t ih =>
    intro seen
    simp only [dedupGameIdsGo]
    by_cases hb : b ∈ seen
    · rw [if_pos hb]
      exact ih seen
    · rw [if_neg hb]
      obtain ⟨hnd, hni⟩ := ih (seen ++ [b])
      constructor
      · refine List.nodup_cons.mpr ⟨?_, hnd⟩
        intro hbmem
        exact hni b hbmem (by simp)
      · intro x hx hxs
        rcases List.mem_cons.mp hx with h1 | h2
        · subst h1
          exact hb hxs
        · exact hni x h2 (by simp [hxs])

theorem dedupGo_mem : ∀ (l seen : List Int) (x : Int),
    x ∈ dedupGameIdsGo seen l ↔ (x ∈ l ∧ x ∉ seen) := by
  intro l
  induction l with
  | nil => intro seen x; simp [dedupGameIdsGo]
  | cons b t ih =>
    intro seen x
    simp only [dedupGameIdsGo]
    by_cases hb : b ∈ seen
    · rw [if_pos hb, ih]
      constructor
      · rintro ⟨hxt, hxs⟩
        exact ⟨List.mem_cons_of_mem _ hxt, hxs⟩
      · rintro ⟨hx, hxs⟩
        rcases List.mem_cons.mp hx with h1 | h2
        · exact absurd (h1 ▸ hb) hxs
        · exact ⟨h2, hxs⟩
    · rw [if_neg hb]
      constructor
      · intro hx
        rcases List.mem_cons.mp hx with h1 | h2
        · subst h1
          exact ⟨List.mem_cons_self _ _, hb⟩
        · obtain ⟨hxt, hxs⟩ := (ih (seen ++ [b]) x).mp h2
          refine ⟨List.mem_cons_of_mem _ hxt, ?_⟩
          intro hc
          exact hxs (by simp [hc])
      · rintro ⟨hx, hxs⟩
        rcases List.mem_cons.mp hx with h1 | h2
        · subst h1
          exact List.mem_cons_self _ _
        · by_cases hxb : x = b
          · subst hxb
            exact List.mem_cons_self _ _
          · refine List.mem_cons_of_mem _ ?_
            refine (ih (seen ++ [b]) x).mpr ⟨h2, ?_⟩
            intro hc
            rcases List.mem_append.mp hc with h3 | h4
            · exact hxs h3
            · exact hxb (by simpa using h4)

/-! ### Claim C8 -/

theorem dedupGameIds_cons (a : Int) (l : List Int) :
    dedupGameIds (a :: l) = a :: dedupGameIds (l.filter (fun x => x ≠ a)) := by
  show dedupGameIdsGo [] (a :: l) = _
  simp only [dedupGameIdsGo]
  rw [if_neg (List.not_mem_nil a)]
  congr 1
  have h := dedupGo_filter a l []
  simpa using h

/-- C8: the membership passed to the set-members call is the resolved id
list with duplicates removed preserving first occurrences; in particular
`[5, 7, 5, 9]` yields `[5, 7, 9]`. -/
theorem c8_collection_membership_dedup :
    (∀ (collectionId : Int) (gameIds : List Int),
      collectionUpdateArgs collectionId gameIds =
        (collectionId, dedupGameIds gameIds)) ∧
    dedupGameIds [] = [] ∧
    (∀ (a : Int) (l : List Int),
      dedupGameIds (a :: l) = a :: dedupGameIds (l.filter (fun x => x ≠ a))) ∧
    (∀ l : List Int, (dedupGameIds l).Nodup) ∧
    (∀ (l : List Int) (x : Int), x ∈ dedupGameIds l ↔ x ∈ l) ∧
    dedupGameIds [5, 7, 5, 9] = [5, 7, 9] := by
  refine ⟨fun _ _ => rfl, rfl, dedupGameIds_cons, ?_, ?_, by decide⟩
  · intro l
    exact (dedupGo_nodup l []).1
  · intro l x
    have h := dedupGo_mem l [] x
    simpa using h

/-! ### Claim C3 -/

/-- C3: for each candidate title, a missing full-title search is retried
with the last whitespace-delimited word dropped, word by word, until a
non-empty result or a single word remains; the next title is attempted
only after the current one is exhausted at every reduction level, and the
first non-empty result set is returned together with the title string that
produced it. -/
theorem c3_reducing_title_search :
    (∀ (search : String → List IgdbGame) (title : String),
      searchGameWithReducingTitle search title = reducingSearchSpec search title) ∧
    (∀ (fuel : Nat) (s : String),
      List.Chain' (fun a b => b = nextTitle a) (titleChainAux fuel s)) ∧
    (∀ (s t : String), (titleChain s).getLast? = some t → (wsWords t).length ≤ 1) ∧
    (∀ (search : String → List IgdbGame) (titles : List String),
      searchPhase search titles =
        (match titles.find? (chainHasHit search) with
         | some t => (searchGameWithReducingTitle search t).1
         | none => ([], none),
         ((titles.takeWhile (fun t => !(chainHasHit search t))) ++
           (match titles.find? (chainHasHit search) with
            | some t => [t]
            | none => [])).flatMap
           (fun u => (searchGameWithReducingTitle search u).2))) ∧
    titleChain "The Great Game: Deluxe Edition" =
      ["The Great Game: Deluxe Edition", "The Great Game: Deluxe",
       "The Great Game:", "The Great", "The"] :=
  ⟨searchGameWithReducingTitle_eq_spec,
   titleChainAux_chain,
   fun s t ht => titleChainAux_last (wsWords s).length s (le_refl _) t ht,
   searchPhase_eq,
   by decide⟩

theorem c3_reducing_title_search_witness :
    (titleChain "a b").getLast? = some "a" ∧ (wsWords "a").length ≤ 1 :=
  ⟨by decide, c3_reducing_title_search.2.2.1 "a b" "a" (by decide)⟩

/-! ### Association-list lemmas -/

theorem lookupKey_cons {α : Type} (kv : String × α) (m : List (String × α))
    (k : String) :
    lookupKey (kv :: m) k = if kv.1 = k then some kv.2 else lookupKey m k := by
  by_cases h : kv.1 = k
  · rw [if_pos h]
    simp only [lookupKey]
    rw [List.find?_cons_of_pos _ (by simp [h])]
  · rw [if_neg h]
    simp only [lookupKey]
    rw [List.find?_cons_of_neg _ (by simp [h])]

theorem lookupKey_map_set_ne {α : Type} (m : List (String × α)) (k : String)
    (v : α) (rk : String) (h : k ≠ rk) :
    lookupKey (m.map (fun kv => if kv.1 = k then (kv.1, v) else kv)) rk =
      lookupKey m rk := by
  induction m with
  | nil => rfl
  | cons kv m ih =>
    simp only [List.map_cons]
    by_cases hk : kv.1 = k
    · rw [if_pos hk, lookupKey_cons, lookupKey_cons]
      have hne : ¬ kv.1 = rk := by
        rw [hk]
        exact h
      rw [if_neg hne, if_neg hne]
      exact ih
    · rw [if_neg hk, lookupKey_cons, lookupKey_cons, ih]

theorem lookupKey_map_set_self {α : Type} (m : List (String × α)) (k : String)
    (v : α) (hc : containsKey m k = true) :
    lookupKey (m.map (fun kv => if kv.1 = k then (kv.1, v) else kv)) k =
      some v := by
  induction m with
  | nil => simp [containsKey, lookupKey] at hc
  | cons kv m ih =>
    simp only [List.map_cons]
    by_cases hk : kv.1 = k
    · rw [if_pos hk, lookupKey_cons, if_pos hk]
    · rw [if_neg hk, lookupKey_cons, if_neg hk]
      apply ih
      simp only [containsKey, lookupKey_cons, if_neg hk] at hc
      exact hc

theorem lookupKey_append_single_ne {α : Type} (m : List (String × α))
    (k : String) (v : α) (rk : String) (h : k ≠ rk) :
    lookupKey (m ++ [(k, v)]) rk = lookupKey m rk := by
  induction m with
  | nil =>
    simp only [List.nil_append, lookupKey, List.find?]
    simp [h]
  | cons kv m ih =>
    rw [List.cons_append, lookupKey_cons, lookupKey_cons]
    by_cases hrk : kv.1 = rk
    · rw [if_pos hrk, if_pos hrk]
    · rw [if_neg hrk, if_neg hrk]
      exact ih

theorem lookupKey_append_single_self {α : Type} (m : List (String × α))
    (k : String) (v : α) (hc : ¬ containsKey m k = true) :
    lookupKey (m ++ [(k, v)]) k = some v := by
  induction m with
  | nil =>
    simp only [List.nil_append, lookupKey, List.find?]
    simp
  | cons kv m ih =>
    rw [List.cons_append, lookupKey_cons]
    simp only [containsKey, lookupKey_cons] at hc
    by_cases hk : kv.1 = k
    · rw [if_pos hk] at hc
      simp at hc
    · rw [if_neg hk] at hc
      rw [if_neg hk]
      exact ih hc

theorem lookupKey_setKey_self {α : Type} (m : List (String × α)) (k : String)
    (v : α) : lookupKey (setKey m k v) k = some v := by
  unfold setKey
  by_cases hc : containsKey m k = true
  · rw [if_pos hc]
    exact lookupKey_map_set_self m k v hc
  · rw [if_neg hc]
    exact lookupKey_append_single_self m k v hc

theorem lookupKey_setKey_ne {α : Type} (m : List (String × α)) (k : String)
    (v : α) (rk : String) (h : k ≠ rk) :
    lookupKey (setKey m k v) rk = lookupKey m rk := by
  unfold setKey
  by_cases hc : containsKey m k = true
  · rw [if_pos hc]
    exact lookupKey_map_set_ne m k v rk h
  · rw [if_neg hc]
    exact lookupKey_append_single_ne m k v rk h

/-! ### Claim C7 -/

theorem loadFold_frame (fields : List (String × Json)) :
    ∀ (acc : List (String × Json)) (rk : String),
    (∀ f ∈ fields, f.1 ≠ rk) →
    lookupKey (fields.foldl loadEntryStep acc) rk = lookupKey acc rk := by
  induction fields with
  | nil => intro acc rk _; rfl
  | cons f rest ih =>
    intro acc rk hne
    rw [List.foldl_cons]
    rw [ih (loadEntryStep acc f) rk (fun g hg => hne g (List.mem_cons_of_mem f hg))]
    have hf : f.1 ≠ rk := hne f (List.mem_cons_self f rest)
    simp only [loadEntryStep]
    split_ifs with h1 h2
    · rfl
    · exact lookupKey_setKey_ne acc f.1 f.2 rk hf
    · exact lookupKey_setKey_ne acc f.1 _ rk hf

theorem loadFold_num (fields : List (String × Json)) :
    ∀ (acc : List (String × Json)) (rk : String) (n : Int),
    (fields.map Prod.fst).Nodup → (rk, Json.jnum n) ∈ fields → rk ≠ "" →
    lookupKey (fields.foldl loadEntryStep acc) rk =
      some (Json.jobj [("igdbId", Json.jnum n)]) := by
  induction fields with
  | nil =>
    intro acc rk n _ hmem _
    simp at hmem
  | cons f rest ih =>
    intro acc rk n hnd hmem hrk
    rw [List.foldl_cons]
    rcases List.mem_cons.mp hmem with h1 | h2
    · subst h1
      have hrest : ∀ g ∈ rest, g.1 ≠ rk := by
        intro g hg he
        have : rk ∈ rest.map Prod.fst := by
          rw [← he]
          exact List.mem_map_of_mem Prod.fst hg
        exact (List.nodup_cons.mp hnd).1 this
      rw [loadFold_frame rest (loadEntryStep acc (rk, Json.jnum n)) rk hrest]
      simp only [loadEntryStep]
      rw [if_neg (by simpa using hrk)]
      rw [if_neg (by rintro ⟨-, hobj⟩; simp [isObjLike] at hobj)]
      exact lookupKey_setKey_self acc rk _
    · exact ih (loadEntryStep acc f) rk n (List.nodup_cons.mp hnd).2 h2 hrk

/-- C7: `loadReleaseKeyMap` never raises: an absent file yields an empty
map, unreadable or unparsable contents yield an empty map plus the logged
warning, and a bare numeric entry is normalized on load to the object
entry shape `{igdbId: n}`. -/
theorem c7_load_map :
    ((loadReleaseKeyMap none).importMap = [] ∧
      (loadReleaseKeyMap none).existed = false ∧
      (loadReleaseKeyMap none).warned = false) ∧
    ((loadReleaseKeyMap (some none)).importMap = [] ∧
      (loadReleaseKeyMap (some none)).existed = true ∧
      (loadReleaseKeyMap (some none)).warned = true) ∧
    (∀ (fields : List (String × Json)) (rk : String) (n : Int),
      (fields.map Prod.fst).Nodup → (rk, Json.jnum n) ∈ fields → rk ≠ "" →
      lookupKey (loadReleaseKeyMap (some (some (Json.jobj fields)))).importMap rk =
        some (Json.jobj [("igdbId", Json.jnum n)])) := by
  refine ⟨⟨rfl, rfl, rfl⟩, ⟨rfl, rfl, rfl⟩, ?_⟩
  intro fields rk n hnd hmem hrk
  show lookupKey (if jsonTruthy (Json.jobj fields) ∧ isObjLike (Json.jobj fields)
      then (objEntries (Json.jobj fields)).foldl loadEntryStep [] else []) rk = _
  rw [if_pos ⟨by simp [jsonTruthy], by simp [isObjLike]⟩]
  exact loadFold_num fields [] rk n hnd hmem hrk

theorem c7_load_map_witness :
    ([("k", Json.jnum 7)].map Prod.fst).Nodup ∧
    ("k", Json.jnum 7) ∈ [("k", Json.jnum 7)] ∧ "k" ≠ "" ∧
    lookupKey (loadReleaseKeyMap (some (some
        (Json.jobj [("k", Json.jnum 7)])))).importMap "k" =
      some (Json.jobj [("igdbId", Json.jnum 7)]) :=
  ⟨by simp, by simp, by simp,
    c7_load_map.2.2 [("k", Json.jnum 7)] "k" 7 (by simp) (by simp) (by simp)⟩

/-! ### Call classifiers -/

def isSearchCall : Call → Bool
  | .searchCall _ _ => true
  | _ => false

def isDetailsCall : Call → Bool
  | .getDetailsCall _ => true
  | _ => false

def isCreateCall : Call → Bool
  | .createGameCall _ => true
  | _ => false

def isUploadExecCall : Call → Bool
  | .uploadExecCall _ _ _ => true
  | _ => false

def isUploadAssetCall : Call → Bool
  | .uploadCoverCall _ _ => true
  | .uploadBackgroundCall _ _ => true
  | _ => false

def isSaveMapCall : Call → Bool
  | .saveMapCall _ => true
  | _ => false

/-! ### `importGame` in forced-reimport mode -/

/-- The options the games loop passes on a forced reimport. -/
def forcedOptions (v : JVal) : ImportOptions :=
  { igdbId := some v, skipSearch := true, skipCreate := true,
    skipIgdbFetch := true }

/-- The executable / cover / background upload calls `importGame` makes
for a resolved game id. -/
def uploadCalls (env : Env) (gid : JVal) (execs : List ExecEntry)
    (imgs rk : String) : List Call :=
  execs.flatMap (fun e =>
    if e.path = "" then []
    else if env.fsExists e.path then
      [Call.uploadExecCall gid e.path (cleanLabel e.label)]
    else []) ++
  (if rk = "" then [] else
    (match (coverPatterns imgs rk).find? env.fsExists with
     | some p => [Call.uploadCoverCall gid p]
     | none => []) ++
    (match (backgroundPatterns imgs rk).find? env.fsExists with
     | some p => [Call.uploadBackgroundCall gid p]
     | none => []))

/-- The record payload assembled in fresh-import mode for a chosen
candidate. -/
def freshGameData (env : Env) (gd rating : Option Int) (chosen : IgdbGame) :
    GameData :=
  let fullGameData := env.details (JVal.num chosen.id)
  { igdbId := JVal.num chosen.id,
    name := jsOrS (fullGameData.bind FullGameData.name) chosen.name,
    releaseDate :=
      jsOrI (jsOrI (jsNullIfFalsy (fullGameData.bind FullGameData.releaseDateFullTs))
        (jsNullIfFalsy (fullGameData.bind FullGameData.releaseDate)))
        (jsNullIfFalsy gd),
    stars := starsOfRating rating }

/-- The exact value of `importGame` under the forced-reimport options with
a truthy numeric stored id: no search, no detail fetch, no creation; only
the executable/asset uploads, with the stored catalog id reused. -/
theorem importGame_forced (env : Env) (titles : List String) (rk : String)
    (execs : List ExecEntry) (imgs : String) (rating yr gd : Option Int)
    (n : Int) (hn : n ≠ 0) :
    importGame env titles rk execs imgs rating yr gd
      (forcedOptions (JVal.num n)) =
    (Except.ok (some { gameId := JVal.num n, igdbId := JVal.num n,
                       title := titles.headD "",
                       releaseDate := formatReleaseDateForMap (jsNullIfFalsy gd),
                       stars := starsOfRating rating }),
     uploadCalls env (JVal.num n) execs imgs rk) := by
  have ht : jvalTruthy (JVal.num n) = true := by simp [jvalTruthy, hn]
  simp [importGame, forcedOptions, uploadCalls, ht, jsOrS, jsOrI,
    jsNullIfFalsy, intTruthy, starsOfRating]

/-- The exact value of `importGame` in fresh-import mode: the search phase
runs first; with no candidate the release is skipped with only search
calls in the trace; with a candidate the detail fetch and the guarded
creation follow, keyed by the selected candidate's id — a failed,
non-tolerated create propagates the error with the trace cut before the
uploads, otherwise the uploads complete the trace. -/
theorem importGame_unforced (env : Env) (titles : List String) (rk : String)
    (execs : List ExecEntry) (imgs : String) (rating yr gd : Option Int)
    (ex : List JVal) :
    importGame env titles rk execs imgs rating yr gd
      { existingGameIds := ex } =
      (match selectCandidate
          (searchPhase (fun t => env.search t (releaseDateForSearchOf env gd yr))
            titles).1.1 ex with
       | none =>
         (Except.ok none,
          (searchPhase (fun t => env.search t (releaseDateForSearchOf env gd yr))
            titles).2.map
            (fun t => Call.searchCall t (releaseDateForSearchOf env gd yr)))
       | some chosen =>
         match createOutcome env (freshGameData env gd rating chosen) with
         | some msg =>
           (Except.error msg,
            (searchPhase (fun t => env.search t (releaseDateForSearchOf env gd yr))
              titles).2.map
              (fun t => Call.searchCall t (releaseDateForSearchOf env gd yr)) ++
            [Call.getDetailsCall (JVal.num chosen.id)] ++
            [Call.createGameCall (freshGameData env gd rating chosen)])
         | none =>
           (Except.ok (some { gameId := JVal.num chosen.id,
                              igdbId := JVal.num chosen.id,
                              title := (freshGameData env gd rating chosen).name,
                              releaseDate :=
                                formatReleaseDateForMap (freshGameData env gd rating chosen).releaseDate,
                              stars := starsOfRating rating }),
            (searchPhase (fun t => env.search t (releaseDateForSearchOf env gd yr))
              titles).2.map
              (fun t => Call.searchCall t (releaseDateForSearchOf env gd yr)) ++
            [Call.getDetailsCall (JVal.num chosen.id)] ++
            [Call.createGameCall (freshGameData env gd rating chosen)] ++
            uploadCalls env (JVal.num chosen.id) execs imgs rk)) := by
  cases hsel : selectCandidate
      (searchPhase (fun t => env.search t (releaseDateForSearchOf env gd yr))
        titles).1.1 ex with
  | none =>
    simp [importGame, hsel]
  | some chosen =>
    cases hout : createOutcome env (freshGameData env gd rating chosen) with
    | none =>
      simp only [freshGameData] at hout
      simp [importGame, hsel, freshGameData, uploadCalls, starsOfRating, hout]
    | some msg =>
      simp only [freshGameData] at hout
      simp [importGame, hsel, freshGameData, uploadCalls, starsOfRating, hout]

/-! ### Upload-call classification -/

theorem uploadCalls_classify (env : Env) (gid : JVal) (execs : List ExecEntry)
    (imgs rk : String) :
    ∀ c ∈ uploadCalls env gid execs imgs rk,
      isSearchCall c = false ∧ isDetailsCall c = false ∧ isCreateCall c = false := by
  intro c hc
  unfold uploadCalls at hc
  rcases List.mem_append.mp hc with h1 | h2
  · obtain ⟨e, he, hmem⟩ := List.mem_flatMap.mp h1
    by_cases hp : e.path = ""
    · rw [if_pos hp] at hmem
      simp at hmem
    · rw [if_neg hp] at hmem
      by_cases hf : env.fsExists e.path = true
      · rw [if_pos hf] at hmem
        simp at hmem
        subst hmem
        exact ⟨rfl, rfl, rfl⟩
      · rw [if_neg hf] at hmem
        simp at hmem
  · by_cases hrk : rk = ""
    · rw [if_pos hrk] at h2
      simp at h2
    · rw [if_neg hrk] at h2
      rcases List.mem_append.mp h2 with h3 | h4
      · cases hcov : (coverPatterns imgs rk).find? env.fsExists with
        | some p =>
          rw [hcov] at h3
          simp at h3
          subst h3
          exact ⟨rfl, rfl, rfl⟩
        | none =>
          rw [hcov] at h3
          simp at h3
      · cases hbg : (backgroundPatterns imgs rk).find? env.fsExists with
        | some p =>
          rw [hbg] at h4
          simp at h4
          subst h4
          exact ⟨rfl, rfl, rfl⟩
        | none =>
          rw [hbg] at h4
          simp at h4

theorem uploadCalls_exec_mem (env : Env) (gid : JVal) (execs : List ExecEntry)
    (imgs rk : String) (e : ExecEntry) (he : e ∈ execs) (hp : e.path ≠ "")
    (hf : env.fsExists e.path = true) :
    Call.uploadExecCall gid e.path (cleanLabel e.label) ∈
      uploadCalls env gid execs imgs rk := by
  apply List.mem_append_left
  refine List.mem_flatMap.mpr ⟨e, he, ?_⟩
  rw [if_neg hp, if_pos hf]
  exact List.mem_singleton_self _

theorem uploadCalls_cover_mem (env : Env) (gid : JVal) (execs : List ExecEntry)
    (imgs rk : String) (p : String) (hrk : rk ≠ "")
    (hp : (coverPatterns imgs rk).find? env.fsExists = some p) :
    Call.uploadCoverCall gid p ∈ uploadCalls env gid execs imgs rk := by
  apply List.mem_append_right
  rw [if_neg hrk]
  apply List.mem_append_left
  rw [hp]
  exact List.mem_singleton_self _

theorem uploadCalls_background_mem (env : Env) (gid : JVal)
    (execs : List ExecEntry) (imgs rk : String) (p : String) (hrk : rk ≠ "")
    (hp : (backgroundPatterns imgs rk).find? env.fsExists = some p) :
    Call.uploadBackgroundCall gid p ∈ uploadCalls env gid execs imgs rk := by
  apply List.mem_append_right
  rw [if_neg hrk]
  apply List.mem_append_right
  rw [hp]
  exact List.mem_singleton_self _

/-! ### Claim C2 -/

/-- C2: with an existing map entry (a truthy numeric stored id `n`) and
the forced-reupload flag set, `importGame` reuses `n` as the catalog id,
makes no search, detail-fetch or create-game call, and does invoke the
executable and asset upload interfaces (for each executable present on
disk and for the first existing cover/background pattern). -/
theorem c2_forced_reimport (env : Env) (titles : List String) (rk : String)
    (execs : List ExecEntry) (imgs : String) (rating yr gd : Option Int)
    (n : Int) (hn : n ≠ 0) :
    (∀ c ∈ (importGame env titles rk execs imgs rating yr gd
        (forcedOptions (JVal.num n))).2,
      isSearchCall c = false ∧ isDetailsCall c = false ∧ isCreateCall c = false) ∧
    (importGame env titles rk execs imgs rating yr gd
        (forcedOptions (JVal.num n))).1 =
      Except.ok (some { gameId := JVal.num n, igdbId := JVal.num n,
                        title := titles.headD "",
                        releaseDate := formatReleaseDateForMap (jsNullIfFalsy gd),
                        stars := starsOfRating rating }) ∧
    (∀ e ∈ execs, e.path ≠ "" → env.fsExists e.path = true →
      Call.uploadExecCall (JVal.num n) e.path (cleanLabel e.label) ∈
        (importGame env titles rk execs imgs rating yr gd
          (forcedOptions (JVal.num n))).2) ∧
    (rk ≠ "" → ∀ p, (coverPatterns imgs rk).find? env.fsExists = some p →
      Call.uploadCoverCall (JVal.num n) p ∈
        (importGame env titles rk execs imgs rating yr gd
          (forcedOptions (JVal.num n))).2) ∧
    (rk ≠ "" → ∀ p, (backgroundPatterns imgs rk).find? env.fsExists = some p →
      Call.uploadBackgroundCall (JVal.num n) p ∈
        (importGame env titles rk execs imgs rating yr gd
          (forcedOptions (JVal.num n))).2) := by
  rw [importGame_forced env titles rk execs imgs rating yr gd n hn]
  refine ⟨?_, rfl, ?_, ?_, ?_⟩
  · exact uploadCalls_classify env (JVal.num n) execs imgs rk
  · intro e he hp hf
    exact uploadCalls_exec_mem env (JVal.num n) execs imgs rk e he hp hf
  · intro hrk p hp
    exact uploadCalls_cover_mem env (JVal.num n) execs imgs rk p hrk hp
  · intro hrk p hp
    exact uploadCalls_background_mem env (JVal.num n) execs imgs rk p hrk hp

theorem c2_forced_reimport_witness :
    Call.uploadExecCall (JVal.num 7) "/games/a.sh" "run" ∈
      (importGame
        { search := fun _ _ => [], details := fun _ => none,
          createError := fun _ => none,
          fsExists := fun _ => true, existingIds := [], yearToTs := fun _ => 0 }
        ["T"] "k" [{ path := "/games/a.sh", label := some "run.sh" }] "/img"
        none none none (forcedOptions (JVal.num 7))).2 := by
  have h := (c2_forced_reimport
    { search := fun _ _ => [], details := fun _ => none,
      createError := fun _ => none,
      fsExists := fun _ => true, existingIds := [], yearToTs := fun _ => 0 }
    ["T"] "k" [{ path := "/games/a.sh", label := some "run.sh" }] "/img"
    none none none 7 (by decide)).2.2.1
    { path := "/games/a.sh", label := some "run.sh" } (by simp) (by decide) rfl
  simpa using h

/-! ### Claim C10 -/

/-- C10: a null or empty executable label is replaced by the default
label `script` before extension stripping, so such an executable is
uploaded with display label `script`. -/
theorem c10_default_script_label :
    cleanLabel none = "script" ∧ cleanLabel (some "") = "script" ∧
    (∀ lbl : Option String, strTruthy lbl = false → cleanLabel lbl = "script") ∧
    (∀ (env : Env) (titles : List String) (rk : String) (execs : List ExecEntry)
        (imgs : String) (rating yr gd : Option Int) (n : Int) (e : ExecEntry),
      n ≠ 0 → e ∈ execs → e.path ≠ "" → env.fsExists e.path = true →
      strTruthy e.label = false →
      Call.uploadExecCall (JVal.num n) e.path "script" ∈
        (importGame env titles rk execs imgs rating yr gd
          (forcedOptions (JVal.num n))).2) := by
  have hfalsy : ∀ lbl : Option String, strTruthy lbl = false →
      cleanLabel lbl = "script" := by
    intro lbl hl
    cases lbl with
    | none => rfl
    | some s =>
      have hs : s = "" := by
        simpa [strTruthy] using hl
      subst hs
      rfl
  refine ⟨rfl, rfl, hfalsy, ?_⟩
  intro env titles rk execs imgs rating yr gd n e hn he hp hf hl
  rw [importGame_forced env titles rk execs imgs rating yr gd n hn]
  have h := uploadCalls_exec_mem env (JVal.num n) execs imgs rk e he hp hf
  rw [hfalsy e.label hl] at h
  exact h

theorem c10_default_script_label_witness :
    Call.uploadExecCall (JVal.num 3) "/games/b" "script" ∈
      (importGame
        { search := fun _ _ => [], details := fun _ => none,
          createError := fun _ => none,
          fsExists := fun _ => true, existingIds := [], yearToTs := fun _ => 0 }
        ["T"] "k" [{ path := "/games/b", label := none }] "/img"
        none none none (forcedOptions (JVal.num 3))).2 :=
  c10_default_script_label.2.2.2
    { search := fun _ _ => [], details := fun _ => none,
      createError := fun _ => none,
      fsExists := fun _ => true, existingIds := [], yearToTs := fun _ => 0 }
    ["T"] "k" [{ path := "/games/b", label := none }] "/img"
    none none none 3 { path := "/games/b", label := none }
    (by decide) (by simp) (by decide) rfl rfl

/-! ### Claim C4 -/

theorem head?_filter {α : Type} (p : α → Bool) (l : List α) :
    (l.filter p).head? = l.find? p := by
  induction l with
  | nil => rfl
  | cons a t ih =>
    by_cases hp : p a = true
    · rw [List.filter_cons_of_pos hp, List.find?_cons_of_pos _ hp]
      rfl
    · rw [List.filter_cons_of_neg hp, List.find?_cons_of_neg _ hp]
      exact ih

theorem selectCandidate_eq_find (games : List IgdbGame) (ex : List JVal)
    (g0 : IgdbGame) (gs : List IgdbGame) (h : games = g0 :: gs) :
    selectCandidate games ex =
      some (match games.find? (fun g => ¬ ex.contains (JVal.num g.id)) with
            | some g => g
            | none => g0) := by
  subst h
  have hhead := head?_filter (fun g => ¬ ex.contains (JVal.num g.id)) (g0 :: gs)
  simp only [selectCandidate]
  cases hfil : (g0 :: gs).filter (fun g => ¬ ex.contains (JVal.num g.id)) with
  | nil =>
    rw [hfil] at hhead
    rw [← hhead]
    rfl
  | cons g t =>
    rw [hfil] at hhead
    rw [← hhead]
    rfl

/-- C4: whenever the remote search returns at least one candidate, the
importer selects the first candidate whose id is not among the
already-cataloged ids, falling back to the very first candidate when all
of them are already cataloged; the fresh import then proceeds under the
selected candidate's id. -/
theorem c4_candidate_selection (env : Env) (titles : List String) (rk : String)
    (execs : List ExecEntry) (imgs : String) (rating yr gd : Option Int)
    (ex : List JVal) :
    (∀ (games : List IgdbGame) (g0 : IgdbGame) (gs : List IgdbGame),
      games = g0 :: gs →
      selectCandidate games ex =
        some (match games.find? (fun g => ¬ ex.contains (JVal.num g.id)) with
              | some g => g
              | none => g0)) ∧
    (∀ (g0 : IgdbGame) (gs : List IgdbGame),
      (searchPhase (fun t => env.search t (releaseDateForSearchOf env gd yr))
        titles).1.1 = g0 :: gs →
      Call.getDetailsCall (JVal.num
          ((match (g0 :: gs).find? (fun g => ¬ ex.contains (JVal.num g.id)) with
            | some g => g
            | none => g0) : IgdbGame).id) ∈
        (importGame env titles rk execs imgs rating yr gd
          { existingGameIds := ex }).2 ∧
      Call.createGameCall (freshGameData env gd rating
          ((match (g0 :: gs).find? (fun g => ¬ ex.contains (JVal.num g.id)) with
            | some g => g
            | none => g0) : IgdbGame)) ∈
        (importGame env titles rk execs imgs rating yr gd
          { existingGameIds := ex }).2 ∧
      ∀ r : ImportResult,
        (importGame env titles rk execs imgs rating yr gd
          { existingGameIds := ex }).1 = Except.ok (some r) →
        r.gameId = JVal.num
          ((match (g0 :: gs).find? (fun g => ¬ ex.contains (JVal.num g.id)) with
            | some g => g
            | none => g0) : IgdbGame).id ∧
        r.igdbId = JVal.num
          ((match (g0 :: gs).find? (fun g => ¬ ex.contains (JVal.num g.id)) with
            | some g => g
            | none => g0) : IgdbGame).id) := by
  constructor
  · intro games g0 gs h
    exact selectCandidate_eq_find games ex g0 gs h
  · intro g0 gs hsp
    rw [importGame_unforced env titles rk execs imgs rating yr gd ex, hsp,
      selectCandidate_eq_find (g0 :: gs) ex g0 gs rfl]
    cases hout : createOutcome env (freshGameData env gd rating
        ((match (g0 :: gs).find? (fun g => ¬ ex.contains (JVal.num g.id)) with
          | some g => g
          | none => g0) : IgdbGame)) with
    | none =>
      simp only [hout]
      refine ⟨by simp, by simp, ?_⟩
      intro r hr
      simp at hr
      subst hr
      exact ⟨by simp, by simp⟩
    | some msg =>
      simp only [hout]
      refine ⟨by simp, by simp, ?_⟩
      intro r hr
      simp at hr

theorem c4_candidate_selection_witness :
    ((([⟨1, "A"⟩, ⟨2, "B"⟩] : List IgdbGame) = ⟨1, "A"⟩ :: [⟨2, "B"⟩]) ∧
      selectCandidate [⟨1, "A"⟩, ⟨2, "B"⟩] [JVal.num 1] = some ⟨2, "B"⟩) ∧
    selectCandidate [⟨1, "A"⟩, ⟨2, "B"⟩] [JVal.num 1, JVal.num 2] =
      some ⟨1, "A"⟩ := by
  refine ⟨⟨rfl, ?_⟩, ?_⟩
  · have h := (c4_candidate_selection
      { search := fun _ _ => [], details := fun _ => none,
        createError := fun _ => none,
        fsExists := fun _ => false, existingIds := [], yearToTs := fun _ => 0 }
      [] "" [] "" none none none [JVal.num 1]).1
      [⟨1, "A"⟩, ⟨2, "B"⟩] ⟨1, "A"⟩ [⟨2, "B"⟩] rfl
    rw [h]
    decide
  · have h := (c4_candidate_selection
      { search := fun _ _ => [], details := fun _ => none,
        createError := fun _ => none,
        fsExists := fun _ => false, existingIds := [], yearToTs := fun _ => 0 }
      [] "" [] "" none none none [JVal.num 1, JVal.num 2]).1
      [⟨1, "A"⟩, ⟨2, "B"⟩] ⟨1, "A"⟩ [⟨2, "B"⟩] rfl
    rw [h]
    decide

/-! ### Grouping-loop lemmas -/

theorem foldl_preserve {σ α : Type} (P : σ → Prop) (step : σ → α → σ) :
    ∀ (l : List α) (s : σ), P s → (∀ t a, a ∈ l → P t → P (step t a)) →
    P (l.foldl step s) := by
  intro l
  induction l with
  | nil => intro s hs _; exact hs
  | cons a t ih =>
    intro s hs hstep
    rw [List.foldl_cons]
    exact ih (step s a) (hstep s a (List.mem_cons_self a t) hs)
      (fun u b hb hu => hstep u b (List.mem_cons_of_mem a hb) hu)

theorem keys_updateKey {α : Type} (m : List (String × α)) (k : String)
    (f : α → α) : (updateKey m k f).map Prod.fst = m.map Prod.fst := by
  unfold updateKey
  rw [List.map_map]
  apply List.map_congr_left
  intro kv _
  by_cases h : kv.1 = k
  · simp [h]
  · simp [h]

theorem mem_updateKey {α : Type} (m : List (String × α)) (rk : String)
    (f : α → α) (k : String) (g : α) (h : (k, g) ∈ updateKey m rk f) :
    ∃ g0, (k, g0) ∈ m ∧ (g = g0 ∨ (k = rk ∧ g = f g0)) := by
  unfold updateKey at h
  obtain ⟨kv, hkv, heq⟩ := List.mem_map.mp h
  by_cases hk : kv.1 = rk
  · rw [if_pos hk] at heq
    have h1 : kv.1 = k := congrArg Prod.fst heq
    have h2 : f kv.2 = g := congrArg Prod.snd heq
    have hmem : (kv.1, kv.2) ∈ m := by simpa using hkv
    refine ⟨kv.2, ?_, Or.inr ⟨by rw [← h1, hk], h2.symm⟩⟩
    rw [← h1]
    exact hmem
  · rw [if_neg hk] at heq
    rw [heq] at hkv
    exact ⟨g, hkv, Or.inl rfl⟩

theorem containsKey_iff {α : Type} (m : List (String × α)) (k : String) :
    containsKey m k = true ↔ k ∈ m.map Prod.fst := by
  induction m with
  | nil => simp [containsKey, lookupKey]
  | cons kv m ih =>
    simp only [containsKey, lookupKey_cons, List.map_cons, List.mem_cons]
    by_cases h : kv.1 = k
    · simp [h]
    · rw [if_neg h]
      rw [show (lookupKey m k).isSome = containsKey m k from rfl, ih]
      constructor
      · exact Or.inr
      · rintro (h1 | h2)
        · exact absurd h1.symm h
        · exact h2

/-- Any per-aggregate property preserved by seeding, backfilling and
executable insertion is preserved by one grouping step. -/
theorem groupStep_key_preserve (Q : GroupAgg → Prop)
    (m : List (String × GroupAgg)) (row : GameRow) (k : String)
    (hm : ∀ g, (k, g) ∈ m → Q g)
    (hseed : row.releaseKey = some k → k ≠ "" → Q (seedAgg row))
    (hback : ∀ g, Q g → row.releaseKey = some k → Q (backfillAgg g row))
    (hexec : ∀ g p lbl, Q g → Q (addExecRow g p lbl)) :
    ∀ g, (k, g) ∈ groupStep m row → Q g := by
  have hnone : row.releaseKey = none → groupStep m row = m := by
    intro h
    rw [groupStep, h]
  have hsome : ∀ rk, row.releaseKey = some rk →
      groupStep m row =
        (if rk = "" then m
         else
           let m1 :=
             if containsKey m rk = true then
               updateKey m rk (fun g => backfillAgg g row)
             else m ++ [(rk, seedAgg row)]
           match row.executablePath with
           | some p =>
             if p = "" then m1 else updateKey m1 rk (fun g => addExecRow g p row.label)
           | none => m1) := by
    intro rk h
    rw [groupStep, h]
  intro g hg
  cases hrk : row.releaseKey with
  | none =>
    rw [hnone hrk] at hg
    exact hm g hg
  | some rk =>
    rw [hsome rk hrk] at hg
    by_cases he : rk = ""
    · rw [if_pos he] at hg
      exact hm g hg
    · rw [if_neg he] at hg
      have hm1 : ∀ g, (k, g) ∈
          (if containsKey m rk = true then
            updateKey m rk (fun g => backfillAgg g row)
          else m ++ [(rk, seedAgg row)]) → Q g := by
        intro g hg1
        by_cases hc : containsKey m rk = true
        · rw [if_pos hc] at hg1
          obtain ⟨g0, hg0, hcase⟩ := mem_updateKey m rk _ k g hg1
          rcases hcase with h1 | ⟨h2, h3⟩
          · exact h1 ▸ hm g0 hg0
          · subst h2
            rw [h3]
            exact hback g0 (hm g0 hg0) hrk
        · rw [if_neg hc] at hg1
          rcases List.mem_append.mp hg1 with h1 | h2
          · exact hm g h1
          · simp at h2
            obtain ⟨h3, h4⟩ := h2
            subst h3
            rw [h4]
            exact hseed hrk he
      cases hep : row.executablePath with
      | none =>
        rw [hep] at hg
        simp only [] at hg
        exact hm1 g hg
      | some p =>
        rw [hep] at hg
        simp only [] at hg
        by_cases hpe : p = ""
        · rw [if_pos hpe] at hg
          exact hm1 g hg
        · rw [if_neg hpe] at hg
          obtain ⟨g0, hg0, hcase⟩ := mem_updateKey _ rk _ k g hg
          rcases hcase with h1 | ⟨h2, h3⟩
          · exact h1 ▸ hm1 g0 hg0
          · rw [h3]
            exact hexec g0 p row.label (hm1 g0 hg0)

/-- Lift a per-aggregate property through the whole grouping loop. -/
theorem groupRows_key_preserve (Q : GroupAgg → Prop) (rows : List GameRow)
    (k : String)
    (hseed : ∀ row ∈ rows, row.releaseKey = some k → k ≠ "" → Q (seedAgg row))
    (hback : ∀ row ∈ rows, ∀ g, Q g → row.releaseKey = some k →
      Q (backfillAgg g row))
    (hexec : ∀ g p lbl, Q g → Q (addExecRow g p lbl)) :
    ∀ g, (k, g) ∈ groupRows rows → Q g := by
  have h := foldl_preserve (fun m => ∀ g, (k, g) ∈ m → Q g) groupStep rows []
    (by intro g hg; simp at hg)
    (by
      intro m row hrow hm
      exact groupStep_key_preserve Q m row k hm (hseed row hrow)
        (fun g hq hk => hback row hrow g hq hk) hexec)
  exact h

theorem groupStep_eq_none (m : List (String × GroupAgg)) (row : GameRow)
    (h : row.releaseKey = none) : groupStep m row = m := by
  rw [groupStep, h]

theorem groupStep_eq_some (m : List (String × GroupAgg)) (row : GameRow)
    (rk : String) (h : row.releaseKey = some rk) :
    groupStep m row =
      (if rk = "" then m
       else
         let m1 :=
           if containsKey m rk = true then
             updateKey m rk (fun g => backfillAgg g row)
           else m ++ [(rk, seedAgg row)]
         match row.executablePath with
         | some p =>
           if p = "" then m1 else updateKey m1 rk (fun g => addExecRow g p row.label)
         | none => m1) := by
  rw [groupStep, h]

theorem groupStep_keys (m : List (String × GroupAgg)) (row : GameRow) :
    (groupStep m row).map Prod.fst =
      m.map Prod.fst ++
      (match row.releaseKey with
       | some rk => if rk ≠ "" ∧ ¬ containsKey m rk = true then [rk] else []
       | none => []) := by
  cases hrk : row.releaseKey with
  | none =>
    rw [groupStep_eq_none m row hrk]
    simp
  | some rk =>
    rw [groupStep_eq_some m row rk hrk]
    simp only []
    by_cases he : rk = ""
    · rw [if_pos he]
      simp [he]
    · rw [if_neg he]
      by_cases hc : containsKey m rk = true
      · have hextra : (if rk ≠ "" ∧ ¬ containsKey m rk = true then [rk] else [])
            = [] := by simp [hc]
        rw [hextra, List.append_nil]
        simp only [if_pos hc]
        cases hep : row.executablePath with
        | none => simp [keys_updateKey]
        | some p =>
          by_cases hpe : p = ""
          · simp [hpe, keys_updateKey]
          · simp [hpe, keys_updateKey]
      · have hextra : (if rk ≠ "" ∧ ¬ containsKey m rk = true then [rk] else [])
            = [rk] := by simp [hc, he]
        rw [hextra]
        simp only [if_neg hc]
        cases hep : row.executablePath with
        | none => simp
        | some p =>
          by_cases hpe : p = ""
          · simp [hpe]
          · simp [hpe, keys_updateKey]

theorem groupStep_mem_keys (m : List (String × GroupAgg)) (row : GameRow)
    (k : String) :
    k ∈ (groupStep m row).map Prod.fst ↔
      (k ∈ m.map Prod.fst ∨ (row.releaseKey = some k ∧ k ≠ "")) := by
  rw [groupStep_keys, List.mem_append]
  cases hrk : row.releaseKey with
  | none => simp
  | some rk =>
    simp only []
    by_cases he : rk = ""
    · subst he
      constructor
      · rintro (h | h)
        · exact Or.inl h
        · simp at h
      · rintro (h | ⟨h1, h2⟩)
        · exact Or.inl h
        · exact absurd (Option.some.inj h1).symm h2
    · by_cases hc : containsKey m rk = true
      · rw [if_neg (by simp [hc])]
        constructor
        · rintro (h | h)
          · exact Or.inl h
          · simp at h
        · rintro (h | ⟨h1, _⟩)
          · exact Or.inl h
          · left
            have hk : rk = k := Option.some.inj h1
            rw [← hk]
            exact (containsKey_iff m rk).mp hc
      · rw [if_pos (by simp [hc, he])]
        constructor
        · rintro (h | h)
          · exact Or.inl h
          · right
            simp at h
            subst h
            exact ⟨rfl, he⟩
        · rintro (h | ⟨h1, _⟩)
          · exact Or.inl h
          · right
            rw [Option.some.inj h1]
            simp
theorem groupRows_mem_keys (rows : List GameRow) :
    ∀ (m : List (String × GroupAgg)) (k : String),
    k ∈ (rows.foldl groupStep m).map Prod.fst ↔
      (k ∈ m.map Prod.fst ∨ ∃ row ∈ rows, row.releaseKey = some k ∧ k ≠ "") := by
  induction rows with
  | nil =>
    intro m k
    simp
  | cons row rest ih =>
    intro m k
    rw [List.foldl_cons, ih (groupStep m row) k, groupStep_mem_keys]
    constructor
    · rintro ((h | h2) | ⟨r, hr, hrk⟩)
      · exact Or.inl h
      · exact Or.inr ⟨row, List.mem_cons_self _ _, h2⟩
      · exact Or.inr ⟨r, List.mem_cons_of_mem _ hr, hrk⟩
    · rintro (h | ⟨r, hr, hrk⟩)
      · exact Or.inl (Or.inl h)
      · rcases List.mem_cons.mp hr with h1 | h2
        · subst h1
          exact Or.inl (Or.inr hrk)
        · exact Or.inr ⟨r, h2, hrk⟩

theorem groupRows_keys_nodup (rows : List GameRow) :
    ((groupRows rows).map Prod.fst).Nodup := by
  have h := foldl_preserve (fun m => (m.map Prod.fst).Nodup) groupStep rows []
    (by simp)
    (by
      intro m row _ hm
      rw [groupStep_keys]
      cases hrk : row.releaseKey with
      | none => simpa using hm
      | some rk =>
        simp only []
        by_cases hcond : rk ≠ "" ∧ ¬ containsKey m rk = true
        · rw [if_pos hcond]
          rw [List.nodup_append]
          refine ⟨hm, by simp, ?_⟩
          intro x hx hx2
          simp at hx2
          subst hx2
          exact hcond.2 ((containsKey_iff m x).mpr hx)
        · rw [if_neg hcond]
          simpa using hm)
  exact h

/-! ### Executable dedup invariant -/

/-- The dedup key of an executable as stored in the aggregate. -/
def storedKey (e : ExecEntry) : String := e.path ++ "|" ++ e.label.getD ""

/-- Well-formedness of an aggregate's executable set. -/
def execWF (g : GroupAgg) : Prop :=
  g.executableSet = g.executables.map storedKey ∧ g.executableSet.Nodup

theorem storedKey_norm (p : String) (lbl : Option String) :
    storedKey { path := p, label := if strTruthy lbl then lbl else none } =
      p ++ "|" ++ lbl.getD "" := by
  cases lbl with
  | none => rfl
  | some s =>
    by_cases hs : s = ""
    · subst hs
      rfl
    · simp [storedKey, strTruthy, hs]

theorem execWF_addExec (g : GroupAgg) (p : String) (lbl : Option String)
    (h : execWF g) : execWF (addExecRow g p lbl) := by
  simp only [addExecRow]
  by_cases hk : (p ++ "|" ++ lbl.getD "") ∈ g.executableSet
  · rw [if_pos hk]
    exact h
  · rw [if_neg hk]
    constructor
    · simp only [List.map_append, List.map_cons, List.map_nil]
      rw [storedKey_norm, h.1]
    · rw [List.nodup_append]
      refine ⟨h.2, by simp, ?_⟩
      intro x hx hx2
      simp at hx2
      subst hx2
      exact hk hx

theorem groupRows_execWF (rows : List GameRow) (k : String) :
    ∀ g, (k, g) ∈ groupRows rows → execWF g := by
  apply groupRows_key_preserve execWF rows k
  · intro row _ _ _
    exact ⟨rfl, List.nodup_nil⟩
  · intro row _ g hg _
    exact hg
  · intro g p lbl hg
    exact execWF_addExec g p lbl hg

/-! ### Claim C6 -/

theorem pairInj : Function.Injective (fun e : ExecEntry => (e.path, e.label)) := by
  intro a b h
  cases a with
  | mk pa la =>
    cases b with
    | mk pb lb =>
      simp only at h
      obtain ⟨h1, h2⟩ := Prod.mk.injEq .. ▸ h
      simp [h1, h2]

/-- C6 as stated is false: a row with the (non-null) empty-string
releaseKey is discarded by the JS truthiness guard, so no aggregate is
produced although the input has one distinct non-null releaseKey. -/
theorem c6_counterexample :
    (groupRows [{ releaseKey := some "", title := "T", executablePath := none,
                  label := none, myRating := none,
                  releaseDate := none }]).length = 0 ∧
    (([{ releaseKey := some "", title := "T", executablePath := none,
         label := none, myRating := none,
         releaseDate := none }] : List GameRow).filterMap
        GameRow.releaseKey).dedup.length = 1 := by
  constructor
  · rfl
  · rfl

/-- C6 (amended): the grouper produces exactly one aggregate per distinct
non-null, non-empty releaseKey (rows with null or empty releaseKey are
discarded), and within each aggregate every executable `(path, label)`
pair appears at most once. -/
theorem c6_row_grouper (rows : List GameRow) :
    ((gamesByReleaseKey rows).map Prod.fst).Nodup ∧
    (∀ k : String, k ∈ (gamesByReleaseKey rows).map Prod.fst ↔
      ∃ row ∈ rows, row.releaseKey = some k ∧ k ≠ "") ∧
    (∀ (k : String) (g : GameAgg), (k, g) ∈ gamesByReleaseKey rows →
      (g.executables.map (fun e => (e.path, e.label))).Nodup) := by
  have hkeys : (gamesByReleaseKey rows).map Prod.fst =
      (groupRows rows).map Prod.fst := by
    unfold gamesByReleaseKey
    rw [List.map_map]
    rfl
  refine ⟨?_, ?_, ?_⟩
  · rw [hkeys]
    exact groupRows_keys_nodup rows
  · intro k
    rw [hkeys]
    have h := groupRows_mem_keys rows [] k
    simpa [groupRows] using h
  · intro k g hg
    obtain ⟨kv, hkv, heq⟩ := List.mem_map.mp hg
    have hk1 : kv.1 = k := congrArg Prod.fst heq
    have hg2 : finalizeAgg kv.2 = g := congrArg Prod.snd heq
    have hwf := groupRows_execWF rows k kv.2 (by rw [← hk1]; simpa using hkv)
    have hex : g.executables = kv.2.executables := by
      rw [← hg2]
      rfl
    rw [hex]
    have hnodset : (kv.2.executables.map storedKey).Nodup := by
      rw [← hwf.1]
      exact hwf.2
    have hnod : kv.2.executables.Nodup := List.Nodup.of_map storedKey hnodset
    exact hnod.map pairInj

theorem c6_row_grouper_witness :
    ("k", ({ titles := ["T"], title := "T",
             executables := [{ path := "/x", label := some "l" }],
             myRating := none, releaseYear := none, releaseDate := none } : GameAgg)) ∈
      gamesByReleaseKey
        [{ releaseKey := some "k", title := "T", executablePath := some "/x",
           label := some "l", myRating := none, releaseDate := none },
         { releaseKey := some "k", title := "T", executablePath := some "/x",
           label := some "l", myRating := none, releaseDate := none }] ∧
    (([{ path := "/x", label := some "l" }] : List ExecEntry).map
      (fun e => (e.path, e.label))).Nodup := by
  refine ⟨by decide, ?_⟩
  exact (c6_row_grouper
    [{ releaseKey := some "k", title := "T", executablePath := some "/x",
       label := some "l", myRating := none, releaseDate := none },
     { releaseKey := some "k", title := "T", executablePath := some "/x",
       label := some "l", myRating := none, releaseDate := none }]).2.2 "k"
    { titles := ["T"], title := "T",
      executables := [{ path := "/x", label := some "l" }],
      myRating := none, releaseYear := none, releaseDate := none } (by decide)

/-! ### Claim C9 -/

theorem addExecRow_myRating (g : GroupAgg) (p : String) (lbl : Option String) :
    (addExecRow g p lbl).myRating = g.myRating := by
  simp only [addExecRow]
  split_ifs <;> rfl

theorem jsNullIfFalsy_ne_zero (x : Option Int) : jsNullIfFalsy x ≠ some 0 := by
  cases x with
  | none => simp [jsNullIfFalsy, intTruthy]
  | some n =>
    by_cases hn : n = 0
    · simp [jsNullIfFalsy, intTruthy, hn]
    · simp [jsNullIfFalsy, intTruthy, hn]

/-- C9: if every row of a releaseKey carries source rating 0, the
truthiness backfill treats 0 as absent, the aggregate rating is null, and
the record payload's stars field is null rather than 0; stars doubles the
rating only when a truthy (1..5) rating is present. -/
theorem c9_zero_rating_null_stars :
    (∀ (rows : List GameRow) (k : String),
      (∀ row ∈ rows, row.releaseKey = some k → row.myRating = some 0) →
      ∀ g, (k, g) ∈ groupRows rows → g.myRating = none) ∧
    starsOfRating none = none ∧
    (∀ r : Int, starsOfRating (some r) = some (r * 2)) ∧
    (∀ (rows : List GameRow) (k : String) (g : GroupAgg),
      (k, g) ∈ groupRows rows → g.myRating ≠ some 0) ∧
    (∀ (env : Env) (titles : List String) (rk : String) (execs : List ExecEntry)
        (imgs : String) (rating yr gd : Option Int) (ex : List JVal)
        (g : GameData),
      Call.createGameCall g ∈ (importGame env titles rk execs imgs rating yr gd
        { existingGameIds := ex }).2 →
      g.stars = starsOfRating rating) := by
  refine ⟨?_, rfl, fun r => rfl, ?_, ?_⟩
  · intro rows k hzero
    apply groupRows_key_preserve (fun g => g.myRating = none) rows k
    · intro row hrow hk _
      have h0 := hzero row hrow hk
      simp [seedAgg, h0, jsNullIfFalsy, intTruthy]
    · intro row hrow g hg hk
      have h0 := hzero row hrow hk
      simp [backfillAgg, h0, intTruthy, hg]
    · intro g p lbl hg
      rw [addExecRow_myRating]
      exact hg
  · intro rows k g hmem
    refine groupRows_key_preserve (fun g => g.myRating ≠ some 0) rows k ?_ ?_ ?_ g hmem
    · intro row _ _ _
      exact jsNullIfFalsy_ne_zero row.myRating
    · intro row _ g hg _
      simp only [backfillAgg]
      by_cases hc : ¬ intTruthy g.myRating = true ∧ intTruthy row.myRating = true
      · rw [if_pos hc]
        intro he
        rw [he] at hc
        simp [intTruthy] at hc
      · rw [if_neg hc]
        exact hg
    · intro g p lbl hg
      rw [addExecRow_myRating]
      exact hg
  · intro env titles rk execs imgs rating yr gd ex g hmem
    rw [importGame_unforced] at hmem
    cases hsel : selectCandidate
        (searchPhase (fun t => env.search t (releaseDateForSearchOf env gd yr))
          titles).1.1 ex with
    | none =>
      rw [hsel] at hmem
      simp at hmem
    | some chosen =>
      rw [hsel] at hmem
      simp only [] at hmem
      cases hout : createOutcome env (freshGameData env gd rating chosen) with
      | some msg =>
        rw [hout] at hmem
        simp only [] at hmem
        rcases List.mem_append.mp hmem with h1 | h2
        · rcases List.mem_append.mp h1 with h3 | h4
          · obtain ⟨t, _, ht⟩ := List.mem_map.mp h3
            exact absurd ht.symm (by simp)
          · simp at h4
        · simp at h2
          rw [h2]
          rfl
      | none =>
        rw [hout] at hmem
        simp only [] at hmem
        rcases List.mem_append.mp hmem with h1 | h2
        · rcases List.mem_append.mp h1 with h3 | h4
          · rcases List.mem_append.mp h3 with h5 | h6
            · obtain ⟨t, _, ht⟩ := List.mem_map.mp h5
              exact absurd ht.symm (by simp)
            · simp at h6
          · simp at h4
            rw [h4]
            rfl
        · have hcl := uploadCalls_classify env (JVal.num chosen.id) execs imgs rk
            _ h2
          simp [isCreateCall] at hcl

theorem c9_zero_rating_null_stars_witness :
    (∀ row ∈ ([{ releaseKey := some "k", title := "T", executablePath := none,
                 label := none, myRating := some 0,
                 releaseDate := none }] : List GameRow),
      row.releaseKey = some "k" → row.myRating = some 0) ∧
    ("k", ({ titles := ["T"], title := "T", executables := [],
             executableSet := [], myRating := none, releaseYear := none,
             releaseDate := none } : GroupAgg)) ∈
      groupRows [{ releaseKey := some "k", title := "T", executablePath := none,
                   label := none, myRating := some 0, releaseDate := none }] ∧
    ({ titles := ["T"], title := "T", executables := [], executableSet := [],
       myRating := none, releaseYear := none,
       releaseDate := none } : GroupAgg).myRating = none := by
  refine ⟨by decide, by decide, ?_⟩
  exact c9_zero_rating_null_stars.1
    [{ releaseKey := some "k", title := "T", executablePath := none,
       label := none, myRating := some 0, releaseDate := none }] "k" (by decide)
    { titles := ["T"], title := "T", executables := [], executableSet := [],
      myRating := none, releaseYear := none, releaseDate := none } (by decide)

/-! ### Games-loop step lemmas -/

theorem existingIdOf_truthy (e : MapEntry) : jvalTruthy (existingIdOf e) = true := by
  cases he : e.igdbId with
  | none => simp [existingIdOf, he, jvalTruthy]
  | some n =>
    by_cases hn : n = 0
    · simp [existingIdOf, he, hn, jvalTruthy]
    · simp [existingIdOf, he, hn, jvalTruthy]

/-- A releaseKey with an entry in the in-memory map is skipped outright
when the forced-reupload flag is off: only the skip counter moves. -/
theorem runStep_skip (env : Env) (imgs : String) (st : RunState) (k : String)
    (a : GameAgg) (e : MapEntry) (hl : lookupKey st.importMap k = some e) :
    runStep env imgs false st (k, a) = { st with skipCount := st.skipCount + 1 } := by
  simp [runStep, hl, existingIdOf_truthy e]

/-- A releaseKey without an entry invokes `importGame` in fresh mode; when
no candidate is found the release only counts as skipped. -/
theorem runStep_fresh_none (env : Env) (imgs : String) (st : RunState)
    (k : String) (a : GameAgg) (hl : lookupKey st.importMap k = none)
    (hr : (importGame env a.titles k a.executables imgs a.myRating a.releaseYear
      (jsNullIfFalsy a.releaseDate)
      { existingGameIds := st.existingGameIds }).1 = Except.ok none) :
    runStep env imgs false st (k, a) =
      { st with
        invoked := st.invoked ++ [k],
        trace := st.trace ++ (importGame env a.titles k a.executables imgs
          a.myRating a.releaseYear (jsNullIfFalsy a.releaseDate)
          { existingGameIds := st.existingGameIds }).2,
        skipCount := st.skipCount + 1 } := by
  simp [runStep, hl, hr]

/-- A releaseKey without an entry whose fresh import throws (a failed,
non-tolerated create) is caught by the loop and only counts as skipped:
no map entry, no success. -/
theorem runStep_fresh_err (env : Env) (imgs : String) (st : RunState)
    (k : String) (a : GameAgg) (msg : String)
    (hl : lookupKey st.importMap k = none)
    (hr : (importGame env a.titles k a.executables imgs a.myRating a.releaseYear
      (jsNullIfFalsy a.releaseDate)
      { existingGameIds := st.existingGameIds }).1 = Except.error msg) :
    runStep env imgs false st (k, a) =
      { st with
        invoked := st.invoked ++ [k],
        trace := st.trace ++ (importGame env a.titles k a.executables imgs
          a.myRating a.releaseYear (jsNullIfFalsy a.releaseDate)
          { existingGameIds := st.existingGameIds }).2,
        skipCount := st.skipCount + 1 } := by
  simp [runStep, hl, hr]

/-- A releaseKey without an entry whose fresh import succeeds (truthy
gameId and igdbId) is recorded: success counter, succeeded list, and a
map entry written with `setKey`. -/
theorem runStep_fresh_success (env : Env) (imgs : String) (st : RunState)
    (k : String) (a : GameAgg) (res : ImportResult)
    (hl : lookupKey st.importMap k = none)
    (hr : (importGame env a.titles k a.executables imgs a.myRating a.releaseYear
      (jsNullIfFalsy a.releaseDate) { existingGameIds := st.existingGameIds }).1 =
      Except.ok (some res))
    (h1 : jvalTruthy res.gameId = true) (h2 : jvalTruthy res.igdbId = true) :
    ∃ ne : MapEntry,
    runStep env imgs false st (k, a) =
      { st with
        invoked := st.invoked ++ [k],
        trace := st.trace ++ (importGame env a.titles k a.executables imgs
          a.myRating a.releaseYear (jsNullIfFalsy a.releaseDate)
          { existingGameIds := st.existingGameIds }).2,
        successCount := st.successCount + 1,
        succeeded := st.succeeded ++ [k],
        existingGameIds :=
          if st.existingGameIds.contains res.igdbId then st.existingGameIds
          else st.existingGameIds ++ [res.igdbId],
        importMap := setKey st.importMap k ne,
        importMapDirty := true } := by
  refine ⟨{ igdbId := jvalIdField res.igdbId, title := jsOrSN none res.title,
            releaseDate := jsNullIfFalsyS res.releaseDate, stars := res.stars }, ?_⟩
  simp [runStep, hl, hr, h1, h2]

theorem selectCandidate_none_iff (games : List IgdbGame) (ex : List JVal) :
    selectCandidate games ex = none ↔ games = [] := by
  cases games with
  | nil => simp [selectCandidate]
  | cons g0 gs =>
    simp only [selectCandidate]
    cases hf : (g0 :: gs).filter (fun g => ¬ ex.contains (JVal.num g.id)) <;> simp

theorem selectCandidate_mem (games : List IgdbGame) (ex : List JVal)
    (chosen : IgdbGame) (h : selectCandidate games ex = some chosen) :
    chosen ∈ games := by
  cases games with
  | nil => simp [selectCandidate] at h
  | cons g0 gs =>
    simp only [selectCandidate] at h
    cases hf : (g0 :: gs).filter (fun g => ¬ ex.contains (JVal.num g.id)) with
    | nil =>
      rw [hf] at h
      simp at h
      rw [← h]
      exact List.mem_cons_self _ _
    | cons g t =>
      rw [hf] at h
      have hg : g = chosen := by simpa using h
      have hmem : chosen ∈ (g0 :: gs).filter (fun g => ¬ ex.contains (JVal.num g.id)) := by
        rw [hf, ← hg]
        exact List.mem_cons_self _ _
      exact List.mem_of_mem_filter hmem

theorem searchPhase_result_source (search : String → List IgdbGame)
    (titles : List String) :
    (searchPhase search titles).1.1 = [] ∨
      ∃ t, (searchPhase search titles).1.1 = search t := by
  rw [searchPhase_eq]
  cases hf : titles.find? (chainHasHit search) with
  | none => left; rfl
  | some t =>
    simp only []
    rw [searchGameWithReducingTitle_eq_spec]
    unfold reducingSearchSpec
    simp only []
    cases hcf : (titleChain (trimWs t)).find? (fun u => decide (search u ≠ [])) with
    | none => left; rfl
    | some u => right; exact ⟨u, rfl⟩

/-- Whether a fresh import of this aggregate would find any candidate. -/
def freshSearchOk (env : Env) (a : GameAgg) : Prop :=
  (searchPhase
    (fun t => env.search t
      (releaseDateForSearchOf env (jsNullIfFalsy a.releaseDate) a.releaseYear))
    a.titles).1.1 ≠ []

theorem importGame_fresh_none_iff (env : Env) (a : GameAgg) (k : String)
    (imgs : String) (ex : List JVal) :
    (importGame env a.titles k a.executables imgs a.myRating a.releaseYear
      (jsNullIfFalsy a.releaseDate)
      { existingGameIds := ex }).1 = Except.ok none ↔
      ¬ freshSearchOk env a := by
  rw [importGame_unforced]
  unfold freshSearchOk
  cases hsel : selectCandidate
      (searchPhase (fun t => env.search t
        (releaseDateForSearchOf env (jsNullIfFalsy a.releaseDate) a.releaseYear))
        a.titles).1.1 ex with
  | none =>
    simp only [hsel]
    simp [(selectCandidate_none_iff _ ex).mp hsel]
  | some chosen =>
    simp only [hsel]
    have hne : (searchPhase (fun t => env.search t
        (releaseDateForSearchOf env (jsNullIfFalsy a.releaseDate) a.releaseYear))
        a.titles).1.1 ≠ [] := by
      intro hnil
      rw [hnil] at hsel
      simp [selectCandidate] at hsel
    cases hout : createOutcome env (freshGameData env
        (jsNullIfFalsy a.releaseDate) a.myRating chosen) with
    | none => simp [hne]
    | some msg => simp [hne]

theorem importGame_fresh_result (env : Env) (a : GameAgg) (k : String)
    (imgs : String) (ex : List JVal)
    (hids : ∀ t d, ∀ g ∈ env.search t d, g.id ≠ 0) :
    (importGame env a.titles k a.executables imgs a.myRating a.releaseYear
      (jsNullIfFalsy a.releaseDate)
      { existingGameIds := ex }).1 = Except.ok none ∨
    (∃ res, (importGame env a.titles k a.executables imgs a.myRating a.releaseYear
      (jsNullIfFalsy a.releaseDate)
      { existingGameIds := ex }).1 = Except.ok (some res) ∧
      jvalTruthy res.gameId = true ∧ jvalTruthy res.igdbId = true) ∨
    (∃ msg, (importGame env a.titles k a.executables imgs a.myRating a.releaseYear
      (jsNullIfFalsy a.releaseDate)
      { existingGameIds := ex }).1 = Except.error msg) := by
  rw [importGame_unforced]
  cases hsel : selectCandidate
      (searchPhase (fun t => env.search t
        (releaseDateForSearchOf env (jsNullIfFalsy a.releaseDate) a.releaseYear))
        a.titles).1.1 ex with
  | none =>
    left
    simp [hsel]
  | some chosen =>
    right
    have hchosen := selectCandidate_mem _ ex chosen hsel
    have hid : chosen.id ≠ 0 := by
      rcases searchPhase_result_source (fun t => env.search t
          (releaseDateForSearchOf env (jsNullIfFalsy a.releaseDate) a.releaseYear))
          a.titles with hnil | ⟨t, ht⟩
      · rw [hnil] at hchosen
        simp at hchosen
      · rw [ht] at hchosen
        exact hids t _ chosen hchosen
    simp only [hsel]
    cases hout : createOutcome env (freshGameData env
        (jsNullIfFalsy a.releaseDate) a.myRating chosen) with
    | none =>
      left
      refine ⟨_, rfl, ?_, ?_⟩ <;> simp [jvalTruthy, hid]
    | some msg =>
      right
      exact ⟨msg, rfl⟩

theorem importGame_fresh_none_trace (env : Env) (a : GameAgg) (k : String)
    (imgs : String) (ex : List JVal) (h : ¬ freshSearchOk env a) :
    (importGame env a.titles k a.executables imgs a.myRating a.releaseYear
      (jsNullIfFalsy a.releaseDate) { existingGameIds := ex }).2 =
      (searchPhase (fun t => env.search t
        (releaseDateForSearchOf env (jsNullIfFalsy a.releaseDate) a.releaseYear))
        a.titles).2.map
        (fun t => Call.searchCall t
          (releaseDateForSearchOf env (jsNullIfFalsy a.releaseDate) a.releaseYear)) := by
  rw [importGame_unforced]
  unfold freshSearchOk at h
  have hnil : (searchPhase (fun t => env.search t
      (releaseDateForSearchOf env (jsNullIfFalsy a.releaseDate) a.releaseYear))
      a.titles).1.1 = [] := by
    by_contra hc
    exact h hc
  rw [show selectCandidate (searchPhase (fun t => env.search t
      (releaseDateForSearchOf env (jsNullIfFalsy a.releaseDate) a.releaseYear))
      a.titles).1.1 ex = none from by rw [hnil]; rfl]

/-- When every create call succeeds (or is tolerated as already-exists),
a fresh import never propagates an error. -/
theorem importGame_fresh_no_err (env : Env) (a : GameAgg) (k : String)
    (imgs : String) (ex : List JVal)
    (hcr : ∀ gd, createOutcome env gd = none) (msg : String) :
    (importGame env a.titles k a.executables imgs a.myRating a.releaseYear
      (jsNullIfFalsy a.releaseDate)
      { existingGameIds := ex }).1 ≠ Except.error msg := by
  rw [importGame_unforced]
  cases hsel : selectCandidate
      (searchPhase (fun t => env.search t
        (releaseDateForSearchOf env (jsNullIfFalsy a.releaseDate) a.releaseYear))
        a.titles).1.1 ex with
  | none => simp [hsel]
  | some chosen =>
    simp [hsel,
      hcr (freshGameData env (jsNullIfFalsy a.releaseDate) a.myRating chosen)]

/-- Number of create-game calls in a trace. -/
def countCreates (tr : List Call) : Nat := (tr.filter isCreateCall).length

theorem countCreates_append (x y : List Call) :
    countCreates (x ++ y) = countCreates x + countCreates y := by
  simp [countCreates, List.filter_append]

theorem countCreates_searches (L : List String) (d : Option Int) :
    countCreates (L.map (fun t => Call.searchCall t d)) = 0 := by
  induction L with
  | nil => rfl
  | cons t rest ih =>
    simp only [List.map_cons, countCreates, List.filter_cons]
    rw [if_neg (by simp [isCreateCall])]
    exact ih

theorem countCreates_save (m : List (String × MapEntry)) :
    countCreates [Call.saveMapCall m] = 0 := rfl

theorem lookupKey_setKey_isSome {α : Type} (m : List (String × α)) (k0 : String)
    (v : α) (k : String) (h : (lookupKey m k).isSome = true) :
    (lookupKey (setKey m k0 v) k).isSome = true := by
  by_cases hk : k0 = k
  · subst hk
    rw [lookupKey_setKey_self]
    rfl
  · rw [lookupKey_setKey_ne m k0 v k hk]
    exact h

theorem filter_no_save (tr : List Call) (h : ∀ c ∈ tr, isSaveMapCall c = false) :
    tr.filter isSaveMapCall = [] := by
  induction tr with
  | nil => rfl
  | cons c cs ih =>
    rw [List.filter_cons, if_neg (by simp [h c (List.mem_cons_self _ _)])]
    exact ih (fun x hx => h x (List.mem_cons_of_mem _ hx))

theorem uploadCalls_no_save (env : Env) (gid : JVal) (execs : List ExecEntry)
    (imgs rk : String) :
    ∀ c ∈ uploadCalls env gid execs imgs rk, isSaveMapCall c = false := by
  intro c hc
  unfold uploadCalls at hc
  rcases List.mem_append.mp hc with h1 | h2
  · obtain ⟨e, he, hmem⟩ := List.mem_flatMap.mp h1
    by_cases hp : e.path = ""
    · rw [if_pos hp] at hmem
      simp at hmem
    · rw [if_neg hp] at hmem
      by_cases hf : env.fsExists e.path = true
      · rw [if_pos hf] at hmem
        simp at hmem
        subst hmem
        rfl
      · rw [if_neg hf] at hmem
        simp at hmem
  · by_cases hrk : rk = ""
    · rw [if_pos hrk] at h2
      simp at h2
    · rw [if_neg hrk] at h2
      rcases List.mem_append.mp h2 with h3 | h4
      · cases hcov : (coverPatterns imgs rk).find? env.fsExists with
        | some p =>
          rw [hcov] at h3
          simp at h3
          subst h3
          rfl
        | none =>
          rw [hcov] at h3
          simp at h3
      · cases hbg : (backgroundPatterns imgs rk).find? env.fsExists with
        | some p =>
          rw [hbg] at h4
          simp at h4
          subst h4
          rfl
        | none =>
          rw [hbg] at h4
          simp at h4

theorem importGame_fresh_no_save (env : Env) (titles : List String) (rk : String)
    (execs : List ExecEntry) (imgs : String) (rating yr gd : Option Int)
    (ex : List JVal) :
    ∀ c ∈ (importGame env titles rk execs imgs rating yr gd
      { existingGameIds := ex }).2, isSaveMapCall c = false := by
  intro c hc
  rw [importGame_unforced] at hc
  cases hsel : selectCandidate (searchPhase (fun t => env.search t
      (releaseDateForSearchOf env gd yr)) titles).1.1 ex with
  | none =>
    rw [hsel] at hc
    simp only [] at hc
    obtain ⟨t, _, rfl⟩ := List.mem_map.mp hc
    rfl
  | some chosen =>
    rw [hsel] at hc
    simp only [] at hc
    cases hout : createOutcome env (freshGameData env gd rating chosen) with
    | some msg =>
      rw [hout] at hc
      simp only [] at hc
      rcases List.mem_append.mp hc with h | h
      · rcases List.mem_append.mp h with h1 | h1
        · obtain ⟨t, _, rfl⟩ := List.mem_map.mp h1
          rfl
        · simp at h1
          subst h1
          rfl
      · simp at h
        subst h
        rfl
    | none =>
      rw [hout] at hc
      simp only [] at hc
      rcases List.mem_append.mp hc with h | h
      · rcases List.mem_append.mp h with h1 | h1
        · rcases List.mem_append.mp h1 with h2 | h2
          · obtain ⟨t, _, rfl⟩ := List.mem_map.mp h2
            rfl
          · simp at h2
            subst h2
            rfl
        · simp at h1
          subst h1
          rfl
      · exact uploadCalls_no_save env _ execs imgs rk c h

theorem runFold_master (env : Env) (imgs : String)
    (hids : ∀ t d, ∀ g ∈ env.search t d, g.id ≠ 0) :
    ∀ (aggs : List (String × GameAgg)) (st : RunState),
    (∀ k, (lookupKey st.importMap k).isSome = true →
      (lookupKey (List.foldl (runStep env imgs false) st aggs).importMap k).isSome = true) ∧
    ((∀ gd, createOutcome env gd = none) →
      ∀ ka ∈ aggs, freshSearchOk env ka.2 →
      (lookupKey (List.foldl (runStep env imgs false) st aggs).importMap ka.1).isSome = true) ∧
    ((∀ ka ∈ aggs, (lookupKey st.importMap ka.1).isSome = true ∨ ¬ freshSearchOk env ka.2) →
      countCreates (List.foldl (runStep env imgs false) st aggs).trace =
        countCreates st.trace) ∧
    ((List.foldl (runStep env imgs false) st aggs).trace.filter isSaveMapCall =
      st.trace.filter isSaveMapCall) ∧
    ((∀ k ∈ st.succeeded, (lookupKey st.importMap k).isSome = true) →
      ∀ k ∈ (List.foldl (runStep env imgs false) st aggs).succeeded,
        (lookupKey (List.foldl (runStep env imgs false) st aggs).importMap k).isSome = true) ∧
    ((st.importMapDirty = true ↔ 0 < st.successCount) →
      ((List.foldl (runStep env imgs false) st aggs).importMapDirty = true ↔
        0 < (List.foldl (runStep env imgs false) st aggs).successCount)) := by
  intro aggs
  induction aggs with
  | nil =>
    intro st
    refine ⟨fun k h => h, ?_, fun _ => rfl, rfl, fun h => h, fun h => h⟩
    intro _ ka hka
    simp at hka
  | cons ka0 rest ih =>
    obtain ⟨k0, a0⟩ := ka0
    intro st
    rw [List.foldl_cons]
    cases hl : lookupKey st.importMap k0 with
    | some e =>
      rw [runStep_skip env imgs st k0 a0 e hl]
      obtain ⟨ih1, ih2, ih3, ih4, ih5, ih6⟩ := ih { st with skipCount := st.skipCount + 1 }
      refine ⟨fun k h => ih1 k h, ?_, ?_, ih4, fun h => ih5 h, fun h => ih6 h⟩
      · intro hcr ka hka hok
        rcases List.mem_cons.mp hka with h | h
        · subst h
          exact ih1 k0 (by rw [hl]; rfl)
        · exact ih2 hcr ka h hok
      · intro hall
        exact ih3 (fun ka hka => hall ka (List.mem_cons_of_mem _ hka))
    | none =>
      rcases importGame_fresh_result env a0 k0 imgs st.existingGameIds hids with
        hr | ⟨res, hr, h1, h2⟩ | ⟨msg, hr⟩
      · have hok : ¬ freshSearchOk env a0 :=
          ((importGame_fresh_none_iff env a0 k0 imgs st.existingGameIds).mp hr)
        have htr := importGame_fresh_none_trace env a0 k0 imgs st.existingGameIds hok
        rw [runStep_fresh_none env imgs st k0 a0 hl hr]
        obtain ⟨ih1, ih2, ih3, ih4, ih5, ih6⟩ := ih
          { st with
            invoked := st.invoked ++ [k0],
            trace := st.trace ++ (importGame env a0.titles k0 a0.executables imgs
              a0.myRating a0.releaseYear (jsNullIfFalsy a0.releaseDate)
              { existingGameIds := st.existingGameIds }).2,
            skipCount := st.skipCount + 1 }
        have htrace : countCreates (st.trace ++ (importGame env a0.titles k0
            a0.executables imgs a0.myRating a0.releaseYear
            (jsNullIfFalsy a0.releaseDate)
            { existingGameIds := st.existingGameIds }).2) = countCreates st.trace := by
          rw [countCreates_append, htr, countCreates_searches]
          rw [Nat.add_zero]
        have hsaves : (st.trace ++ (importGame env a0.titles k0 a0.executables imgs
            a0.myRating a0.releaseYear (jsNullIfFalsy a0.releaseDate)
            { existingGameIds := st.existingGameIds }).2).filter isSaveMapCall =
            st.trace.filter isSaveMapCall := by
          rw [List.filter_append,
            filter_no_save _ (importGame_fresh_no_save env a0.titles k0 a0.executables
              imgs a0.myRating a0.releaseYear (jsNullIfFalsy a0.releaseDate)
              st.existingGameIds),
            List.append_nil]
        refine ⟨fun k h => ih1 k h, ?_, ?_, ?_, fun h => ih5 h, fun h => ih6 h⟩
        · intro hcr ka hka hok2
          rcases List.mem_cons.mp hka with h | h
          · subst h
            exact absurd hok2 hok
          · exact ih2 hcr ka h hok2
        · intro hall
          rw [ih3 (fun ka hka => hall ka (List.mem_cons_of_mem _ hka))]
          exact htrace
        · rw [ih4]
          exact hsaves
      · obtain ⟨ne, hstep⟩ := runStep_fresh_success env imgs st k0 a0 res hl hr h1 h2
        have hok : freshSearchOk env a0 := by
          by_contra hno
          have hnone :=
            (importGame_fresh_none_iff env a0 k0 imgs st.existingGameIds).mpr hno
          rw [hr] at hnone
          simp at hnone
        rw [hstep]
        obtain ⟨ih1, ih2, ih3, ih4, ih5, ih6⟩ := ih
          { st with
            invoked := st.invoked ++ [k0],
            trace := st.trace ++ (importGame env a0.titles k0 a0.executables imgs
              a0.myRating a0.releaseYear (jsNullIfFalsy a0.releaseDate)
              { existingGameIds := st.existingGameIds }).2,
            successCount := st.successCount + 1,
            succeeded := st.succeeded ++ [k0],
            existingGameIds :=
              if st.existingGameIds.contains res.igdbId then st.existingGameIds
              else st.existingGameIds ++ [res.igdbId],
            importMap := setKey st.importMap k0 ne,
            importMapDirty := true }
        have hsaves : (st.trace ++ (importGame env a0.titles k0 a0.executables imgs
            a0.myRating a0.releaseYear (jsNullIfFalsy a0.releaseDate)
            { existingGameIds := st.existingGameIds }).2).filter isSaveMapCall =
            st.trace.filter isSaveMapCall := by
          rw [List.filter_append,
            filter_no_save _ (importGame_fresh_no_save env a0.titles k0 a0.executables
              imgs a0.myRating a0.releaseYear (jsNullIfFalsy a0.releaseDate)
              st.existingGameIds),
            List.append_nil]
        refine ⟨?_, ?_, ?_, ?_, ?_, ?_⟩
        · intro k h
          exact ih1 k (lookupKey_setKey_isSome st.importMap k0 ne k h)
        · intro hcr ka hka hok2
          rcases List.mem_cons.mp hka with h | h
          · subst h
            exact ih1 k0 (by rw [lookupKey_setKey_self]; rfl)
          · exact ih2 hcr ka h hok2
        · intro hall
          rcases hall (k0, a0) (List.mem_cons_self _ _) with hsome | hno
          · rw [hl] at hsome
            simp at hsome
          · exact absurd hok hno
        · rw [ih4]
          exact hsaves
        · intro h
          refine ih5 ?_
          intro k hk
          rcases List.mem_append.mp hk with hmem | hmem
          · exact lookupKey_setKey_isSome st.importMap k0 ne k (h k hmem)
          · have : k = k0 := by simpa using hmem
            subst this
            rw [lookupKey_setKey_self]
            rfl
        · intro _
          refine ih6 ?_
          constructor
          · intro _
            exact Nat.succ_pos _
          · intro _
            rfl
      · have hok : freshSearchOk env a0 := by
          by_contra hno
          have hnone :=
            (importGame_fresh_none_iff env a0 k0 imgs st.existingGameIds).mpr hno
          rw [hr] at hnone
          simp at hnone
        rw [runStep_fresh_err env imgs st k0 a0 msg hl hr]
        obtain ⟨ih1, ih2, ih3, ih4, ih5, ih6⟩ := ih
          { st with
            invoked := st.invoked ++ [k0],
            trace := st.trace ++ (importGame env a0.titles k0 a0.executables imgs
              a0.myRating a0.releaseYear (jsNullIfFalsy a0.releaseDate)
              { existingGameIds := st.existingGameIds }).2,
            skipCount := st.skipCount + 1 }
        have hsaves : (st.trace ++ (importGame env a0.titles k0 a0.executables imgs
            a0.myRating a0.releaseYear (jsNullIfFalsy a0.releaseDate)
            { existingGameIds := st.existingGameIds }).2).filter isSaveMapCall =
            st.trace.filter isSaveMapCall := by
          rw [List.filter_append,
            filter_no_save _ (importGame_fresh_no_save env a0.titles k0 a0.executables
              imgs a0.myRating a0.releaseYear (jsNullIfFalsy a0.releaseDate)
              st.existingGameIds),
            List.append_nil]
        refine ⟨fun k h => ih1 k h, ?_, ?_, ?_, fun h => ih5 h, fun h => ih6 h⟩
        · intro hcr ka hka hok2
          exact absurd hr (by
            have := importGame_fresh_no_err env a0 k0 imgs st.existingGameIds hcr msg
            exact this)
        · intro hall
          rcases hall (k0, a0) (List.mem_cons_self _ _) with hsome | hno
          · rw [hl] at hsome
            simp at hsome
          · exact absurd hok hno
        · rw [ih4]
          exact hsaves

theorem runFold_invoked (env : Env) (imgs : String)
    (hids : ∀ t d, ∀ g ∈ env.search t d, g.id ≠ 0) :
    ∀ (aggs : List (String × GameAgg)) (st : RunState)
      (map0 : List (String × MapEntry)),
    (aggs.map Prod.fst).Nodup →
    (∀ ka ∈ aggs, lookupKey st.importMap ka.1 = lookupKey map0 ka.1) →
    (List.foldl (runStep env imgs false) st aggs).invoked =
      st.invoked ++
        (aggs.filter (fun ka => (lookupKey map0 ka.1).isNone)).map Prod.fst ∧
    (List.foldl (runStep env imgs false) st aggs).skipCount +
      (List.foldl (runStep env imgs false) st aggs).successCount =
      st.skipCount + st.successCount + aggs.length := by
  intro aggs
  induction aggs with
  | nil =>
    intro st map0 _ _
    exact ⟨by simp, rfl⟩
  | cons ka0 rest ih =>
    obtain ⟨k0, a0⟩ := ka0
    intro st map0 hnd hagree
    rw [List.map_cons] at hnd
    obtain ⟨hk0, hnd'⟩ := List.nodup_cons.mp hnd
    have hagree0 : lookupKey st.importMap k0 = lookupKey map0 k0 :=
      hagree (k0, a0) (List.mem_cons_self _ _)
    rw [List.foldl_cons]
    cases hl : lookupKey st.importMap k0 with
    | some e =>
      rw [runStep_skip env imgs st k0 a0 e hl]
      have hsome : ((lookupKey map0 k0).isNone = true) = False := by
        rw [← hagree0, hl]
        simp
      obtain ⟨ih1, ih2⟩ := ih { st with skipCount := st.skipCount + 1 } map0 hnd'
        (fun ka hka => hagree ka (List.mem_cons_of_mem _ hka))
      constructor
      · rw [ih1]
        rw [List.filter_cons]
        simp only [hsome, if_false, decide_False]
      · rw [ih2]
        simp only [List.length_cons]
        omega
    | none =>
      have hnone : (lookupKey map0 k0).isNone = true := by
        rw [← hagree0, hl]
        rfl
      rcases importGame_fresh_result env a0 k0 imgs st.existingGameIds hids with
        hr | ⟨res, hr, h1, h2⟩ | ⟨msg, hr⟩
      · rw [runStep_fresh_none env imgs st k0 a0 hl hr]
        obtain ⟨ih1, ih2⟩ := ih
          { st with
            invoked := st.invoked ++ [k0],
            trace := st.trace ++ (importGame env a0.titles k0 a0.executables imgs
              a0.myRating a0.releaseYear (jsNullIfFalsy a0.releaseDate)
              { existingGameIds := st.existingGameIds }).2,
            skipCount := st.skipCount + 1 } map0 hnd'
          (fun ka hka => hagree ka (List.mem_cons_of_mem _ hka))
        constructor
        · rw [ih1]
          rw [List.filter_cons]
          simp only [hnone, if_true, decide_True]
          rw [List.map_cons, List.append_assoc]
          rfl
        · rw [ih2]
          simp only [List.length_cons]
          omega
      · obtain ⟨ne, hstep⟩ := runStep_fresh_success env imgs st k0 a0 res hl hr h1 h2
        rw [hstep]
        obtain ⟨ih1, ih2⟩ := ih
          { st with
            invoked := st.invoked ++ [k0],
            trace := st.trace ++ (importGame env a0.titles k0 a0.executables imgs
              a0.myRating a0.releaseYear (jsNullIfFalsy a0.releaseDate)
              { existingGameIds := st.existingGameIds }).2,
            successCount := st.successCount + 1,
            succeeded := st.succeeded ++ [k0],
            existingGameIds :=
              if st.existingGameIds.contains res.igdbId then st.existingGameIds
              else st.existingGameIds ++ [res.igdbId],
            importMap := setKey st.importMap k0 ne,
            importMapDirty := true } map0 hnd'
          (by
            intro ka hka
            have hne : k0 ≠ ka.1 := by
              intro heq
              have hm : ka.1 ∈ rest.map Prod.fst := List.mem_map_of_mem Prod.fst hka
              rw [← heq] at hm
              exact hk0 hm
            have : lookupKey (setKey st.importMap k0 ne) ka.1 =
                lookupKey st.importMap ka.1 :=
              lookupKey_setKey_ne st.importMap k0 ne ka.1 hne
            rw [show ({ st with
                invoked := st.invoked ++ [k0],
                trace := st.trace ++ (importGame env a0.titles k0 a0.executables imgs
                  a0.myRating a0.releaseYear (jsNullIfFalsy a0.releaseDate)
                  { existingGameIds := st.existingGameIds }).2,
                successCount := st.successCount + 1,
                succeeded := st.succeeded ++ [k0],
                existingGameIds :=
                  if st.existingGameIds.contains res.igdbId then st.existingGameIds
                  else st.existingGameIds ++ [res.igdbId],
                importMap := setKey st.importMap k0 ne,
                importMapDirty := true } : RunState).importMap =
              setKey st.importMap k0 ne from rfl, this]
            exact hagree ka (List.mem_cons_of_mem _ hka))
        constructor
        · rw [ih1]
          rw [List.filter_cons]
          simp only [hnone, if_true, decide_True]
          rw [List.map_cons, List.append_assoc]
          rfl
        · rw [ih2]
          simp only [List.length_cons]
          omega
      · rw [runStep_fresh_err env imgs st k0 a0 msg hl hr]
        obtain ⟨ih1, ih2⟩ := ih
          { st with
            invoked := st.invoked ++ [k0],
            trace := st.trace ++ (importGame env a0.titles k0 a0.executables imgs
              a0.myRating a0.releaseYear (jsNullIfFalsy a0.releaseDate)
              { existingGameIds := st.existingGameIds }).2,
            skipCount := st.skipCount + 1 } map0 hnd'
          (fun ka hka => hagree ka (List.mem_cons_of_mem _ hka))
        constructor
        · rw [ih1]
          rw [List.filter_cons]
          simp only [hnone, if_true, decide_True]
          rw [List.map_cons, List.append_assoc]
          rfl
        · rw [ih2]
          simp only [List.length_cons]
          omega

theorem importFromGOGGalaxyGames_fields (env : Env)
    (map0 : List (String × MapEntry)) (aggs : List (String × GameAgg))
    (imgs : String) (upload : Bool) :
    (importFromGOGGalaxyGames env map0 aggs imgs upload).importMap =
      (List.foldl (runStep env imgs upload)
        { importMap := map0, importMapDirty := false,
          existingGameIds := env.existingIds.map JVal.num,
          successCount := 0, skipCount := 0, invoked := [], succeeded := [],
          trace := [] } aggs).importMap ∧
    (importFromGOGGalaxyGames env map0 aggs imgs upload).invoked =
      (List.foldl (runStep env imgs upload)
        { importMap := map0, importMapDirty := false,
          existingGameIds := env.existingIds.map JVal.num,
          successCount := 0, skipCount := 0, invoked := [], succeeded := [],
          trace := [] } aggs).invoked ∧
    (importFromGOGGalaxyGames env map0 aggs imgs upload).skipCount =
      (List.foldl (runStep env imgs upload)
        { importMap := map0, importMapDirty := false,
          existingGameIds := env.existingIds.map JVal.num,
          successCount := 0, skipCount := 0, invoked := [], succeeded := [],
          trace := [] } aggs).skipCount ∧
    (importFromGOGGalaxyGames env map0 aggs imgs upload).successCount =
      (List.foldl (runStep env imgs upload)
        { importMap := map0, importMapDirty := false,
          existingGameIds := env.existingIds.map JVal.num,
          successCount := 0, skipCount := 0, invoked := [], succeeded := [],
          trace := [] } aggs).successCount ∧
    (importFromGOGGalaxyGames env map0 aggs imgs upload).succeeded =
      (List.foldl (runStep env imgs upload)
        { importMap := map0, importMapDirty := false,
          existingGameIds := env.existingIds.map JVal.num,
          successCount := 0, skipCount := 0, invoked := [], succeeded := [],
          trace := [] } aggs).succeeded ∧
    (importFromGOGGalaxyGames env map0 aggs imgs upload).importMapDirty =
      (List.foldl (runStep env imgs upload)
        { importMap := map0, importMapDirty := false,
          existingGameIds := env.existingIds.map JVal.num,
          successCount := 0, skipCount := 0, invoked := [], succeeded := [],
          trace := [] } aggs).importMapDirty ∧
    (importFromGOGGalaxyGames env map0 aggs imgs upload).trace =
      (List.foldl (runStep env imgs upload)
        { importMap := map0, importMapDirty := false,
          existingGameIds := env.existingIds.map JVal.num,
          successCount := 0, skipCount := 0, invoked := [], succeeded := [],
          trace := [] } aggs).trace ++
      (if (List.foldl (runStep env imgs upload)
        { importMap := map0, importMapDirty := false,
          existingGameIds := env.existingIds.map JVal.num,
          successCount := 0, skipCount := 0, invoked := [], succeeded := [],
          trace := [] } aggs).importMapDirty then
        [Call.saveMapCall ((List.foldl (runStep env imgs upload)
          { importMap := map0, importMapDirty := false,
            existingGameIds := env.existingIds.map JVal.num,
            successCount := 0, skipCount := 0, invoked := [], succeeded := [],
            trace := [] } aggs).importMap)]
       else []) := by
  unfold importFromGOGGalaxyGames
  simp only []
  cases hd : (List.foldl (runStep env imgs upload)
      { importMap := map0, importMapDirty := false,
        existingGameIds := env.existingIds.map JVal.num,
        successCount := 0, skipCount := 0, invoked := [], succeeded := [],
        trace := [] } aggs).importMapDirty
  · simp [hd]
  · simp [hd]

/-- C1 as stated is false without a proviso on the create interface: when
`createGameViaAPI` fails with a non-tolerated error, the release gets no
import-map entry, so a second run against an unchanged remote repeats the
search and makes another game-creation call — one create call in each
run, not zero in the second. -/
theorem c1_counterexample :
    countCreates (importFromGOGGalaxyGames { search := fun _ _ => [{ id := 7, name := "G" }], details := fun _ => none, createError := fun _ => some "boom", fsExists := fun _ => false, existingIds := [], yearToTs := fun _ => 0 } [] [("k1", { titles := ["A"], title := "A", executables := [], myRating := none, releaseYear := none, releaseDate := none })] "imgs" false).trace = 1 ∧
    (importFromGOGGalaxyGames { search := fun _ _ => [{ id := 7, name := "G" }], details := fun _ => none, createError := fun _ => some "boom", fsExists := fun _ => false, existingIds := [], yearToTs := fun _ => 0 } [] [("k1", { titles := ["A"], title := "A", executables := [], myRating := none, releaseYear := none, releaseDate := none })] "imgs" false).successCount = 0 ∧
    (importFromGOGGalaxyGames { search := fun _ _ => [{ id := 7, name := "G" }], details := fun _ => none, createError := fun _ => some "boom", fsExists := fun _ => false, existingIds := [], yearToTs := fun _ => 0 } [] [("k1", { titles := ["A"], title := "A", executables := [], myRating := none, releaseYear := none, releaseDate := none })] "imgs" false).importMap = [] ∧
    countCreates (importFromGOGGalaxyGames { search := fun _ _ => [{ id := 7, name := "G" }], details := fun _ => none, createError := fun _ => some "boom", fsExists := fun _ => false, existingIds := [], yearToTs := fun _ => 0 } (importFromGOGGalaxyGames { search := fun _ _ => [{ id := 7, name := "G" }], details := fun _ => none, createError := fun _ => some "boom", fsExists := fun _ => false, existingIds := [], yearToTs := fun _ => 0 } [] [("k1", { titles := ["A"], title := "A", executables := [], myRating := none, releaseYear := none, releaseDate := none })] "imgs" false).importMap [("k1", { titles := ["A"], title := "A", executables := [], myRating := none, releaseYear := none, releaseDate := none })] "imgs" false).trace = 1 := by
  refine ⟨by decide, by decide, by decide, by decide⟩

/-- C1 (amended): with the forced-reupload flag off, every releaseKey
that already has an entry in the loaded import map is counted as skipped
and `importGame` is never invoked for it (the keys actually invoked are
exactly those absent from the loaded map, and skips plus successes
account for every release); and provided every create call succeeds or
fails only with the tolerated already-exists (409) error, a second run
over the same source against the map produced by the first run performs
zero game-creation calls — a release whose create call fails with any
other error gets no map entry and is retried, create call included, on
the next run. -/
theorem c1_skip_idempotence (env : Env) (map0 : List (String × MapEntry))
    (aggs : List (String × GameAgg)) (imgs : String)
    (hids : ∀ t d, ∀ g ∈ env.search t d, g.id ≠ 0)
    (hnd : (aggs.map Prod.fst).Nodup) :
    (importFromGOGGalaxyGames env map0 aggs imgs false).invoked =
      (aggs.filter (fun ka => (lookupKey map0 ka.1).isNone)).map Prod.fst ∧
    (∀ ka ∈ aggs, (lookupKey map0 ka.1).isSome = true →
      ka.1 ∉ (importFromGOGGalaxyGames env map0 aggs imgs false).invoked) ∧
    (importFromGOGGalaxyGames env map0 aggs imgs false).skipCount +
      (importFromGOGGalaxyGames env map0 aggs imgs false).successCount =
      aggs.length ∧
    ((∀ gd, createOutcome env gd = none) →
      countCreates (importFromGOGGalaxyGames env
        (importFromGOGGalaxyGames env map0 aggs imgs false).importMap
        aggs imgs false).trace = 0) := by
  obtain ⟨hm1, hv1, hk1, hs1, -, -, -⟩ :=
    importFromGOGGalaxyGames_fields env map0 aggs imgs false
  obtain ⟨hi, hc⟩ := runFold_invoked env imgs hids aggs
    { importMap := map0, importMapDirty := false,
      existingGameIds := env.existingIds.map JVal.num,
      successCount := 0, skipCount := 0, invoked := [], succeeded := [],
      trace := [] } map0 hnd (fun ka _ => rfl)
  have hinv : (importFromGOGGalaxyGames env map0 aggs imgs false).invoked =
      (aggs.filter (fun ka => (lookupKey map0 ka.1).isNone)).map Prod.fst := by
    rw [hv1, hi]
    rfl
  refine ⟨hinv, ?_, ?_, ?_⟩
  · intro ka hka hsome hmem
    rw [hinv] at hmem
    obtain ⟨kb, hkb, hfst⟩ := List.mem_map.mp hmem
    obtain ⟨-, hnoneb⟩ := List.mem_filter.mp hkb
    rw [hfst] at hnoneb
    rw [Option.isSome_iff_exists] at hsome
    obtain ⟨v, hv⟩ := hsome
    rw [hv] at hnoneb
    simp at hnoneb
  · rw [hk1, hs1, hc]
    simp
  · intro hcr
    obtain ⟨-, -, -, -, -, -, ht2⟩ :=
      importFromGOGGalaxyGames_fields env
        (importFromGOGGalaxyGames env map0 aggs imgs false).importMap
        aggs imgs false
    rw [ht2, countCreates_append]
    obtain ⟨m1a, m2a, -, -, -, -⟩ := runFold_master env imgs hids aggs
      { importMap := map0, importMapDirty := false,
        existingGameIds := env.existingIds.map JVal.num,
        successCount := 0, skipCount := 0, invoked := [], succeeded := [],
        trace := [] }
    obtain ⟨-, -, m3b, -, -, -⟩ := runFold_master env imgs hids aggs
      { importMap := (importFromGOGGalaxyGames env map0 aggs imgs false).importMap,
        importMapDirty := false,
        existingGameIds := env.existingIds.map JVal.num,
        successCount := 0, skipCount := 0, invoked := [], succeeded := [],
        trace := [] }
    have hcovered : ∀ ka ∈ aggs,
        (lookupKey (importFromGOGGalaxyGames env map0 aggs imgs false).importMap
          ka.1).isSome = true ∨ ¬ freshSearchOk env ka.2 := by
      intro ka hka
      by_cases hok : freshSearchOk env ka.2
      · left
        rw [hm1]
        exact m2a hcr ka hka hok
      · right
        exact hok
    rw [m3b hcovered]
    cases hd : (List.foldl (runStep env imgs false)
        { importMap := (importFromGOGGalaxyGames env map0 aggs imgs false).importMap,
          importMapDirty := false,
          existingGameIds := env.existingIds.map JVal.num,
          successCount := 0, skipCount := 0, invoked := [], succeeded := [],
          trace := [] } aggs).importMapDirty
    · rfl
    · rfl

/-- C1 witness: a concrete one-release catalog, imported twice; the first
run invokes and resolves the single key, and the second run makes no
create calls. -/
theorem c1_skip_idempotence_witness :
    (∀ t d, ∀ g ∈ ({ search := fun _ _ => [{ id := 7, name := "G" }], details := fun _ => none, createError := fun _ => none, fsExists := fun _ => false, existingIds := [], yearToTs := fun _ => 0 } : Env).search t d, g.id ≠ 0) ∧
    (([("k1", ({ titles := ["A"], title := "A", executables := [], myRating := none, releaseYear := none, releaseDate := none } : GameAgg))].map Prod.fst).Nodup) ∧
    ((importFromGOGGalaxyGames { search := fun _ _ => [{ id := 7, name := "G" }], details := fun _ => none, createError := fun _ => none, fsExists := fun _ => false, existingIds := [], yearToTs := fun _ => 0 } [] [("k1", { titles := ["A"], title := "A", executables := [], myRating := none, releaseYear := none, releaseDate := none })] "imgs" false).invoked =
      ([("k1", ({ titles := ["A"], title := "A", executables := [], myRating := none, releaseYear := none, releaseDate := none } : GameAgg))].filter (fun ka => (lookupKey ([] : List (String × MapEntry)) ka.1).isNone)).map Prod.fst ∧
    (∀ ka ∈ [("k1", ({ titles := ["A"], title := "A", executables := [], myRating := none, releaseYear := none, releaseDate := none } : GameAgg))], (lookupKey ([] : List (String × MapEntry)) ka.1).isSome = true →
      ka.1 ∉ (importFromGOGGalaxyGames { search := fun _ _ => [{ id := 7, name := "G" }], details := fun _ => none, createError := fun _ => none, fsExists := fun _ => false, existingIds := [], yearToTs := fun _ => 0 } [] [("k1", { titles := ["A"], title := "A", executables := [], myRating := none, releaseYear := none, releaseDate := none })] "imgs" false).invoked) ∧
    (importFromGOGGalaxyGames { search := fun _ _ => [{ id := 7, name := "G" }], details := fun _ => none, createError := fun _ => none, fsExists := fun _ => false, existingIds := [], yearToTs := fun _ => 0 } [] [("k1", { titles := ["A"], title := "A", executables := [], myRating := none, releaseYear := none, releaseDate := none })] "imgs" false).skipCount +
      (importFromGOGGalaxyGames { search := fun _ _ => [{ id := 7, name := "G" }], details := fun _ => none, createError := fun _ => none, fsExists := fun _ => false, existingIds := [], yearToTs := fun _ => 0 } [] [("k1", { titles := ["A"], title := "A", executables := [], myRating := none, releaseYear := none, releaseDate := none })] "imgs" false).successCount = 1 ∧
    ((∀ gd, createOutcome ({ search := fun _ _ => [{ id := 7, name := "G" }], details := fun _ => none, createError := fun _ => none, fsExists := fun _ => false, existingIds := [], yearToTs := fun _ => 0 } : Env) gd = none) →
      countCreates (importFromGOGGalaxyGames { search := fun _ _ => [{ id := 7, name := "G" }], details := fun _ => none, createError := fun _ => none, fsExists := fun _ => false, existingIds := [], yearToTs := fun _ => 0 } (importFromGOGGalaxyGames { search := fun _ _ => [{ id := 7, name := "G" }], details := fun _ => none, createError := fun _ => none, fsExists := fun _ => false, existingIds := [], yearToTs := fun _ => 0 } [] [("k1", { titles := ["A"], title := "A", executables := [], myRating := none, releaseYear := none, releaseDate := none })] "imgs" false).importMap [("k1", { titles := ["A"], title := "A", executables := [], myRating := none, releaseYear := none, releaseDate := none })] "imgs" false).trace = 0)) := by
  refine ⟨?_, ?_, ?_⟩
  · intro t d g hg
    simp at hg
    rw [hg]
    decide
  · decide
  · exact c1_skip_idempotence { search := fun _ _ => [{ id := 7, name := "G" }], details := fun _ => none, createError := fun _ => none, fsExists := fun _ => false, existingIds := [], yearToTs := fun _ => 0 } [] [("k1", { titles := ["A"], title := "A", executables := [], myRating := none, releaseYear := none, releaseDate := none })] "imgs"
      (by
        intro t d g hg
        simp at hg
        rw [hg]
        decide)
      (by decide)

/-- C5 counterexample: a run in which two releases resolve successfully
contains exactly one save-map call in its trace, not one per success —
the import map is flushed once at the end, not written after each
successful resolution. -/
theorem c5_counterexample :
    (importFromGOGGalaxyGames { search := fun _ _ => [{ id := 7, name := "G" }], details := fun _ => none, createError := fun _ => none, fsExists := fun _ => false, existingIds := [], yearToTs := fun _ => 0 } [] [("k1", { titles := ["A"], title := "A", executables := [], myRating := none, releaseYear := none, releaseDate := none }), ("k2", { titles := ["B"], title := "B", executables := [], myRating := none, releaseYear := none, releaseDate := none })] "imgs" false).successCount = 2 ∧
    ((importFromGOGGalaxyGames { search := fun _ _ => [{ id := 7, name := "G" }], details := fun _ => none, createError := fun _ => none, fsExists := fun _ => false, existingIds := [], yearToTs := fun _ => 0 } [] [("k1", { titles := ["A"], title := "A", executables := [], myRating := none, releaseYear := none, releaseDate := none }), ("k2", { titles := ["B"], title := "B", executables := [], myRating := none, releaseYear := none, releaseDate := none })] "imgs" false).trace.filter isSaveMapCall).length = 1 := by
  constructor
  · decide
  · decide

/-- C5 (amended): the loop never writes the import map; the trace carries
exactly one save-map call — at the end, with the final in-memory map, and
only when the map is dirty; the map is dirty exactly when some resolution
succeeded, and every successfully resolved releaseKey has an entry in the
saved map. -/
theorem c5_flush_once_at_end (env : Env) (map0 : List (String × MapEntry))
    (aggs : List (String × GameAgg)) (imgs : String)
    (hids : ∀ t d, ∀ g ∈ env.search t d, g.id ≠ 0) :
    (importFromGOGGalaxyGames env map0 aggs imgs false).trace.filter isSaveMapCall =
      (if (importFromGOGGalaxyGames env map0 aggs imgs false).importMapDirty then
        [Call.saveMapCall (importFromGOGGalaxyGames env map0 aggs imgs false).importMap]
       else []) ∧
    (∀ k ∈ (importFromGOGGalaxyGames env map0 aggs imgs false).succeeded,
      (lookupKey (importFromGOGGalaxyGames env map0 aggs imgs false).importMap
        k).isSome = true) ∧
    ((importFromGOGGalaxyGames env map0 aggs imgs false).importMapDirty = true ↔
      0 < (importFromGOGGalaxyGames env map0 aggs imgs false).successCount) := by
  obtain ⟨hm, -, -, hs, hsucc, hd, ht⟩ :=
    importFromGOGGalaxyGames_fields env map0 aggs imgs false
  obtain ⟨-, -, -, m4, m5, m6⟩ := runFold_master env imgs hids aggs
    { importMap := map0, importMapDirty := false,
      existingGameIds := env.existingIds.map JVal.num,
      successCount := 0, skipCount := 0, invoked := [], succeeded := [],
      trace := [] }
  refine ⟨?_, ?_, ?_⟩
  · rw [ht, List.filter_append, m4, hd, hm]
    cases hdirty : (List.foldl (runStep env imgs false)
        { importMap := map0, importMapDirty := false,
          existingGameIds := env.existingIds.map JVal.num,
          successCount := 0, skipCount := 0, invoked := [], succeeded := [],
          trace := [] } aggs).importMapDirty
    · rfl
    · rfl
  · intro k hk
    rw [hsucc] at hk
    rw [hm]
    exact m5 (fun k hk => absurd hk (List.not_mem_nil k)) k hk
  · rw [hd, hs]
    exact m6 (by simp)

/-- C5 witness: the amended theorem at the concrete two-release run of
the counterexample. -/
theorem c5_flush_once_at_end_witness :
    (∀ t d, ∀ g ∈ ({ search := fun _ _ => [{ id := 7, name := "G" }], details := fun _ => none, createError := fun _ => none, fsExists := fun _ => false, existingIds := [], yearToTs := fun _ => 0 } : Env).search t d, g.id ≠ 0) ∧
    ((importFromGOGGalaxyGames { search := fun _ _ => [{ id := 7, name := "G" }], details := fun _ => none, createError := fun _ => none, fsExists := fun _ => false, existingIds := [], yearToTs := fun _ => 0 } [] [("k1", { titles := ["A"], title := "A", executables := [], myRating := none, releaseYear := none, releaseDate := none }), ("k2", { titles := ["B"], title := "B", executables := [], myRating := none, releaseYear := none, releaseDate := none })] "imgs" false).trace.filter isSaveMapCall =
      (if (importFromGOGGalaxyGames { search := fun _ _ => [{ id := 7, name := "G" }], details := fun _ => none, createError := fun _ => none, fsExists := fun _ => false, existingIds := [], yearToTs := fun _ => 0 } [] [("k1", { titles := ["A"], title := "A", executables := [], myRating := none, releaseYear := none, releaseDate := none }), ("k2", { titles := ["B"], title := "B", executables := [], myRating := none, releaseYear := none, releaseDate := none })] "imgs" false).importMapDirty then
        [Call.saveMapCall (importFromGOGGalaxyGames { search := fun _ _ => [{ id := 7, name := "G" }], details := fun _ => none, createError := fun _ => none, fsExists := fun _ => false, existingIds := [], yearToTs := fun _ => 0 } [] [("k1", { titles := ["A"], title := "A", executables := [], myRating := none, releaseYear := none, releaseDate := none }), ("k2", { titles := ["B"], title := "B", executables := [], myRating := none, releaseYear := none, releaseDate := none })] "imgs" false).importMap]
       else []) ∧
    (∀ k ∈ (importFromGOGGalaxyGames { search := fun _ _ => [{ id := 7, name := "G" }], details := fun _ => none, createError := fun _ => none, fsExists := fun _ => false, existingIds := [], yearToTs := fun _ => 0 } [] [("k1", { titles := ["A"], title := "A", executables := [], myRating := none, releaseYear := none, releaseDate := none }), ("k2", { titles := ["B"], title := "B", executables := [], myRating := none, releaseYear := none, releaseDate := none })] "imgs" false).succeeded,
      (lookupKey (importFromGOGGalaxyGames { search := fun _ _ => [{ id := 7, name := "G" }], details := fun _ => none, createError := fun _ => none, fsExists := fun _ => false, existingIds := [], yearToTs := fun _ => 0 } [] [("k1", { titles := ["A"], title := "A", executables := [], myRating := none, releaseYear := none, releaseDate := none }), ("k2", { titles := ["B"], title := "B", executables := [], myRating := none, releaseYear := none, releaseDate := none })] "imgs" false).importMap k).isSome = true) ∧
    ((importFromGOGGalaxyGames { search := fun _ _ => [{ id := 7, name := "G" }], details := fun _ => none, createError := fun _ => none, fsExists := fun _ => false, existingIds := [], yearToTs := fun _ => 0 } [] [("k1", { titles := ["A"], title := "A", executables := [], myRating := none, releaseYear := none, releaseDate := none }), ("k2", { titles := ["B"], title := "B", executables := [], myRating := none, releaseYear := none, releaseDate := none })] "imgs" false).importMapDirty = true ↔
      0 < (importFromGOGGalaxyGames { search := fun _ _ => [{ id := 7, name := "G" }], details := fun _ => none, createError := fun _ => none, fsExists := fun _ => false, existingIds := [], yearToTs := fun _ => 0 } [] [("k1", { titles := ["A"], title := "A", executables := [], myRating := none, releaseYear := none, releaseDate := none }), ("k2", { titles := ["B"], title := "B", executables := [], myRating := none, releaseYear := none, releaseDate := none })] "imgs" false).successCount)) := by
  refine ⟨?_, ?_⟩
  · intro t d g hg
    simp at hg
    rw [hg]
    decide
  · exact c5_flush_once_at_end { search := fun _ _ => [{ id := 7, name := "G" }], details := fun _ => none, createError := fun _ => none, fsExists := fun _ => false, existingIds := [], yearToTs := fun _ => 0 } [] [("k1", { titles := ["A"], title := "A", executables := [], myRating := none, releaseYear := none, releaseDate := none }), ("k2", { titles := ["B"], title := "B", executables := [], myRating := none, releaseYear := none, releaseDate := none })] "imgs"
      (by
        intro t d g hg
        simp at hg
        rw [hg]
        decide)

end MHG
